import Mathlib

/-! # Mels demos: frame cache, `QR_Cache` and their callers

A shallow embedding of

* `Demos/XE7/Mels/VCL/C++/MD2/Main.cpp` and `Demos/XE7/Mels/Models/C++/VCL/MD3/Main.cpp`
  (`TMainForm::IFrame`, `TMainForm::GetFrame`, the clearing loop of `LoadModel` and of the
  destructor, `DrawModel`, `OnDrawCustomModelItem`);
* `Demos/Common/C++/QR_Cache.h` (`QR_Cache<T, U>`).

Conventions.  A `std::map<K, V>` is an association list kept in ascending key order.  A pointer
that may be `NULL` is an `Option`.  An `IFrame*` is an address together with the object it points
to (frames are never written after `GetFrame` has built them).  Calls that leave the program
(the model's `GetMesh`, the `OnAdd`/`OnDelete` handlers) and the heap operations `new`/`delete`
are recorded in a trace carried by the state, so that "is invoked" and "is deleted" can be stated.
-/

namespace Mels

/-! ## `std::map` -/

namespace StdMap

variable {K V : Type}

/-- The value stored under `k`, if any: `m.find(k)` compared with `m.end()`. -/
def find [LinearOrder K] : List (K × V) → K → Option V
  | [], _ => none
  | e :: m, k => if e.1 = k then some e.2 else find m k

/-- Insertion of a key that is not in the map, at its place in ascending key order. -/
def insertSorted [LinearOrder K] (k : K) (v : V) : List (K × V) → List (K × V)
  | [] => [(k, v)]
  | e :: m => if k < e.1 then (k, v) :: e :: m else e :: insertSorted k v m

/-- The statement `m[k] = v`: overwrite the value of an existing key, insert the key otherwise. -/
def assign [LinearOrder K] (m : List (K × V)) (k : K) (v : V) : List (K × V) :=
  if (find m k).isSome then m.map (fun e => if e.1 = k then (e.1, v) else e)
  else insertSorted k v m

/-- The call `m.erase(it)` for the iterator `it` that `m.find(k)` returned. -/
def erase [LinearOrder K] : List (K × V) → K → List (K × V)
  | [], _ => []
  | e :: m, k => if e.1 = k then erase m k else e :: erase m k

/-- The keys of the map, in iteration order. -/
def keys (m : List (K × V)) : List K := m.map Prod.fst

end StdMap

/-! ## The frame cache of the MD2 and MD3 demo forms -/

/-- The class `TMainForm::IFrame`: an owned mesh and an owned AABB tree, each possibly `NULL`. -/
structure IFrame (Mesh Tree : Type) where
  m_pMesh : Option Mesh
  m_pAABBTree : Option Tree
deriving DecidableEq, Repr

/-- The constructor `TMainForm::IFrame::IFrame(bool useCollisions)`: both members start as
`NULL`, the mesh is always allocated, the tree only when `useCollisions` is set.  `default`
stands for a freshly constructed `TQRMesh()` / `TQRAABBTree()`. -/
def IFrame.ctor {Mesh Tree : Type} [Inhabited Mesh] [Inhabited Tree] (useCollisions : Bool) :
    IFrame Mesh Tree :=
  let f : IFrame Mesh Tree := { m_pMesh := none, m_pAABBTree := none }
  let f : IFrame Mesh Tree := { f with m_pMesh := some default }
  if useCollisions then { f with m_pAABBTree := some default } else f

/-- An `IFrame*`: the address returned by `new` and the object living there. -/
structure IFramePtr (Mesh Tree : Type) where
  addr : Nat
  obj : IFrame Mesh Tree
deriving DecidableEq, Repr

/-- The model-geometry provider (`TQRMD2Model` / `TQRMD3Model`, library classes outside the
demos), taken as a parameter: its mesh count, what `GetMesh` writes into the mesh it receives by
reference, and what it writes into the tree object when the tree pointer is not `NULL`. -/
structure TQRModel (Mesh Tree : Type) where
  GetMeshCount : Nat
  meshOf : Nat → Mesh → Mesh
  treeOf : Nat → Mesh → Tree → Tree

/-- The call `pModel->GetMesh(index, mesh, pAABBTree)`: the tree pointer is passed by value, so
a `NULL` tree stays `NULL`. -/
def TQRModel.GetMesh {Mesh Tree : Type} (pModel : TQRModel Mesh Tree) (index : Nat) (mesh : Mesh)
    (pAABBTree : Option Tree) : Mesh × Option Tree :=
  (pModel.meshOf index mesh, pAABBTree.map (pModel.treeOf index mesh))

/-- What the frame cache does that is visible outside `m_Frames`. -/
inductive Event where
  /-- entry into `GetFrame(index, pModel, useCollision)` -/
  | callGetFrame (index : Nat) (useCollision : Bool)
  /-- the expression `new IFrame(useCollisions)` returned `addr` -/
  | newFrame (addr : Nat) (useCollisions : Bool)
  /-- the call `pModel->GetMesh(index, ...)` on the mesh and tree of the frame at `addr` -/
  | getMesh (index : Nat) (addr : Nat)
  /-- the statement `delete` on the frame at `addr` -/
  | deleteFrame (addr : Nat)
deriving DecidableEq, Repr

/-- The part of `TMainForm` the frame cache lives in: `m_Frames` (`std::map<std::size_t, IFrame*>`),
the next address `new` hands out, and the trace of events so far. -/
structure TMainForm (Mesh Tree : Type) where
  m_Frames : List (Nat × IFramePtr Mesh Tree)
  nextAddr : Nat
  trace : List Event
deriving DecidableEq, Repr

namespace TMainForm

variable {Mesh Tree : Type}

/-- The form as its constructor leaves it: no cached frame. -/
def init : TMainForm Mesh Tree := { m_Frames := [], nextAddr := 0, trace := [] }

/-- The method `TMainForm::GetFrame(std::size_t index, TQRMD2Model* pModel, bool useCollision)`
of the MD2 demo and its MD3 twin, which differ only in the model class.  The first line records
the call in the trace; the rest follows the source line by line. -/
def GetFrame [Inhabited Mesh] [Inhabited Tree] (s : TMainForm Mesh Tree) (index : Nat)
    (pModel : TQRModel Mesh Tree) (useCollision : Bool) :
    IFramePtr Mesh Tree × TMainForm Mesh Tree :=
  let s := { s with trace := s.trace ++ [Event.callGetFrame index useCollision] }
  match StdMap.find s.m_Frames index with
  | some p => (p, s)
  | none =>
    -- std::auto_ptr<IFrame> pFrame(new IFrame(useCollision));
    let addr := s.nextAddr
    let frame : IFrame Mesh Tree := IFrame.ctor useCollision
    -- pModel->GetMesh(index, *pFrame->m_pMesh, pFrame->m_pAABBTree);
    let frame : IFrame Mesh Tree :=
      match frame.m_pMesh with
      | some mesh =>
        let r := pModel.GetMesh index mesh frame.m_pAABBTree
        { m_pMesh := some r.1, m_pAABBTree := r.2 }
      | none => frame
    let pFrame : IFramePtr Mesh Tree := { addr := addr, obj := frame }
    -- m_Frames[index] = pFrame.get(); return pFrame.release();
    (pFrame,
     { m_Frames := StdMap.assign s.m_Frames index pFrame,
       nextAddr := addr + 1,
       trace := s.trace ++ [Event.newFrame addr useCollision, Event.getMesh index addr] })

/-- The loop `for (it = m_Frames.begin(); it != m_Frames.end(); ++it) delete it->second;`
followed by `m_Frames.clear();`, which opens `LoadModel` and the destructor in both demos.
Deleting a frame deletes its mesh and its tree with it (`IFrame::~IFrame`). -/
def ClearFrames (s : TMainForm Mesh Tree) : TMainForm Mesh Tree :=
  { s with
    m_Frames := [],
    trace := s.trace ++ s.m_Frames.map (fun e => Event.deleteFrame e.2.addr) }

/-- The indices `GetMesh` was invoked with, oldest first. -/
def getMeshCalls (s : TMainForm Mesh Tree) : List Nat :=
  s.trace.filterMap (fun e => match e with
    | Event.getMesh index _ => some index
    | _ => none)

/-- The addresses `delete` was applied to, oldest first. -/
def deleted (s : TMainForm Mesh Tree) : List Nat :=
  s.trace.filterMap (fun e => match e with
    | Event.deleteFrame addr => some addr
    | _ => none)

/-- What a draw handler has in its locals when it reaches the draw call and hands `pAABBTree` to
`DetectAndDrawCollisions`. -/
structure DrawLocals (Mesh Tree : Type) where
  pMeshToDraw : Option Mesh
  pNextMeshToDraw : Option Mesh
  pAABBTree : Option Tree
  interpolated : Bool
deriving DecidableEq, Repr

/-- Conversion of a `NativeInt` argument to the `std::size_t` parameter of `GetFrame`, for a
machine word of `w` bits. -/
def toSizeT (w : Nat) (x : Int) : Nat := (x % 2 ^ w).toNat

/-- The call `TQRModelHelper::Interpolate(factor, *pA, *pB, *pMeshToDraw)` into a fresh `TQRMesh`;
the library routine `Interpolate` is a parameter. -/
def interpolateInto (Interpolate : ℚ → Mesh → Mesh → Mesh) (factor : ℚ)
    (pA pB : Option Mesh) : Option Mesh :=
  match pA, pB with
  | some a, some b => some (Interpolate factor a b)
  | _, _ => none

end TMainForm

/-! ### MD3 demo -/

namespace MD3

open TMainForm

variable {Mesh Tree : Type}

/-- The method `TMainForm::DrawModel` of the MD3 demo, up to the draw call: the state after the
cache look-ups and the locals handed to the drawing code, or `none` for the locals when the
function returns early.  `meshCount` is compared as a `NativeInt`; counts are far below the sign
bit. -/
def DrawModel [Inhabited Mesh] [Inhabited Tree] (w : Nat)
    (Interpolate : ℚ → Mesh → Mesh → Mesh)
    (s : TMainForm Mesh Tree) (pModel : Option (TQRModel Mesh Tree)) (index nextIndex : Int)
    (interpolationFactor : ℚ) (useShader collisions : Bool) :
    Option (DrawLocals Mesh Tree) × TMainForm Mesh Tree :=
  match pModel with
  -- no model to draw?
  | none => (none, s)
  | some model =>
    let meshCount : Int := model.GetMeshCount
    -- are indexes out of bounds?
    if index > meshCount ∨ nextIndex > meshCount then (none, s)
    else
      -- get frame to draw, and frame to interpolate with
      let r := GetFrame s (toSizeT w index) model collisions
      let pFrame := r.1
      let rNext := GetFrame r.2 (toSizeT w nextIndex) model collisions
      let pNextFrame := rNext.1
      let locals : DrawLocals Mesh Tree :=
        if !useShader then
          { pMeshToDraw :=
              interpolateInto Interpolate interpolationFactor pFrame.obj.m_pMesh
                pNextFrame.obj.m_pMesh,
            pNextMeshToDraw := none,
            pAABBTree := pFrame.obj.m_pAABBTree,
            interpolated := true }
        else
          { pMeshToDraw := pFrame.obj.m_pMesh,
            pNextMeshToDraw := pNextFrame.obj.m_pMesh,
            pAABBTree := pFrame.obj.m_pAABBTree,
            interpolated := false }
      (some locals, rNext.2)

end MD3

/-! ### MD2 demo -/

namespace MD2

open TMainForm

variable {Mesh Tree : Type}

/-- A `TCheckBox` of the options form. -/
structure TCheckBox where
  Checked : Bool
deriving DecidableEq, Repr

/-- The controls of the options form (`m_pOptions`) the draw handlers read; each member is a
pointer to a control. -/
structure TOptions where
  ckUseShader : Option TCheckBox
  ckShowCollisions : Option TCheckBox
deriving DecidableEq, Repr

/-- The read `p->Checked`.  The controls exist as long as the options form does, so the `none`
case is never taken. -/
def Checked (p : Option TCheckBox) : Bool :=
  match p with
  | some c => c.Checked
  | none => false

/-- A pointer used where a `bool` is expected: `true` exactly when it is not `NULL`. -/
def ptrToBool {α : Type} (p : Option α) : Bool := p.isSome

/-- The handler `TMainForm::OnDrawCustomModelItem` of the MD2 demo, up to the draw call: the
state after the cache look-ups and the locals handed to the drawing code, or `none` for the
locals when the handler returns early.  The `double` factor is a rational here (a NaN, which
fails both comparisons, has no counterpart). -/
def OnDrawCustomModelItem [Inhabited Mesh] [Inhabited Tree] (w : Nat)
    (Interpolate : ℚ → Mesh → Mesh → Mesh) (m_pOptions : TOptions)
    (s : TMainForm Mesh Tree) (pModel : Option (TQRModel Mesh Tree)) (index nextIndex : Int)
    (interpolationFactor : ℚ) :
    Option (DrawLocals Mesh Tree) × TMainForm Mesh Tree :=
  match pModel with
  -- no model to draw?
  | none => (none, s)
  | some pMD2Model =>
    -- get mesh count
    let meshCount : Int := pMD2Model.GetMeshCount
    -- are indexes out of bounds?
    if index > meshCount ∨ nextIndex > meshCount then (none, s)
    -- do interpolate frames?
    else if interpolationFactor ≤ 0 then
      let r := GetFrame s (toSizeT w index) pMD2Model (ptrToBool m_pOptions.ckShowCollisions)
      (some { pMeshToDraw := r.1.obj.m_pMesh, pNextMeshToDraw := none,
              pAABBTree := r.1.obj.m_pAABBTree, interpolated := false }, r.2)
    else if interpolationFactor ≥ 1 then
      let r := GetFrame s (toSizeT w nextIndex) pMD2Model (ptrToBool m_pOptions.ckShowCollisions)
      (some { pMeshToDraw := r.1.obj.m_pMesh, pNextMeshToDraw := none,
              pAABBTree := r.1.obj.m_pAABBTree, interpolated := false }, r.2)
    else
      -- get frame to draw, and frame to interpolate with
      let r := GetFrame s (toSizeT w index) pMD2Model (ptrToBool m_pOptions.ckShowCollisions)
      let pFrame := r.1
      let rNext :=
        GetFrame r.2 (toSizeT w nextIndex) pMD2Model (ptrToBool m_pOptions.ckShowCollisions)
      let pNextFrame := rNext.1
      let locals : DrawLocals Mesh Tree :=
        if !Checked m_pOptions.ckUseShader then
          { pMeshToDraw :=
              interpolateInto Interpolate interpolationFactor pFrame.obj.m_pMesh
                pNextFrame.obj.m_pMesh,
            pNextMeshToDraw := none,
            pAABBTree := pFrame.obj.m_pAABBTree,
            interpolated := true }
        else
          { pMeshToDraw := pFrame.obj.m_pMesh,
            pNextMeshToDraw := pNextFrame.obj.m_pMesh,
            pAABBTree := pFrame.obj.m_pAABBTree,
            interpolated := false }
      (some locals, rNext.2)

end MD2

/-! ### Sequences of operations on the frame cache -/

namespace TMainForm

variable {Mesh Tree : Type}

/-- The operations of the demo forms that read or write `m_Frames`. -/
inductive Op (Mesh Tree : Type) where
  /-- a call of `GetFrame` -/
  | getFrame (index : Nat) (pModel : TQRModel Mesh Tree) (useCollision : Bool)
  /-- a call of the MD3 `DrawModel` -/
  | drawModel (w : Nat) (Interpolate : ℚ → Mesh → Mesh → Mesh)
      (pModel : Option (TQRModel Mesh Tree)) (index nextIndex : Int) (interpolationFactor : ℚ)
      (useShader collisions : Bool)
  /-- a call of the MD2 `OnDrawCustomModelItem` -/
  | onDrawCustomModelItem (w : Nat) (Interpolate : ℚ → Mesh → Mesh → Mesh)
      (m_pOptions : MD2.TOptions) (pModel : Option (TQRModel Mesh Tree)) (index nextIndex : Int)
      (interpolationFactor : ℚ)
  /-- the clearing step at the start of `LoadModel` -/
  | loadModel

/-- Whether the operation is one of the look-up operations (everything but `LoadModel`). -/
def Op.isLookup : Op Mesh Tree → Bool
  | Op.loadModel => false
  | _ => true

/-- The state after one operation. -/
def step [Inhabited Mesh] [Inhabited Tree] (s : TMainForm Mesh Tree) :
    Op Mesh Tree → TMainForm Mesh Tree
  | Op.getFrame index pModel useCollision => (GetFrame s index pModel useCollision).2
  | Op.drawModel w Interpolate pModel index nextIndex factor useShader collisions =>
    (MD3.DrawModel w Interpolate s pModel index nextIndex factor useShader collisions).2
  | Op.onDrawCustomModelItem w Interpolate m_pOptions pModel index nextIndex factor =>
    (MD2.OnDrawCustomModelItem w Interpolate m_pOptions s pModel index nextIndex factor).2
  | Op.loadModel => ClearFrames s

/-- The state after a sequence of operations, oldest first. -/
def run [Inhabited Mesh] [Inhabited Tree] (s : TMainForm Mesh Tree) (ops : List (Op Mesh Tree)) :
    TMainForm Mesh Tree :=
  ops.foldl step s

/-- What `TMainForm::FormCreate` does to `m_Frames`: it calls `LoadModel` (line 139 of both
`Main.cpp`), and that is the only call of `LoadModel` in either demo.  `FormCreate` runs on the
form as the constructor left it; `LoadModel` attaches the draw handlers and `FormCreate` sets
`Application->OnIdle` in its last line, so no handler runs before the clearing step. -/
def FormCreate [Inhabited Mesh] [Inhabited Tree] (s : TMainForm Mesh Tree) :
    TMainForm Mesh Tree :=
  step s Op.loadModel

/-- The form during the life of the demo: after the constructor, `FormCreate` and the calls
`handlers` of `GetFrame` and of the draw handlers, oldest first. -/
def lifetime [Inhabited Mesh] [Inhabited Tree] (handlers : List (Op Mesh Tree)) :
    TMainForm Mesh Tree :=
  run (FormCreate init) handlers

end TMainForm

/-! ### What holds of the frame cache in every state the forms can reach -/

namespace TMainForm

/-- The invariant of the frame cache: stored addresses were handed out by `new`, are pairwise
distinct and not yet deleted; an address is handed out once; and every stored frame has a mesh
and was built by the `GetFrame` call recorded in the trace, whose flag decides whether it has a
tree. -/
structure Inv {Mesh Tree : Type} (s : TMainForm Mesh Tree) : Prop where
  addr_lt : ∀ e ∈ s.m_Frames, e.2.addr < s.nextAddr
  addr_nodup : (s.m_Frames.map (fun e => e.2.addr)).Nodup
  new_lt : ∀ a uc, Event.newFrame a uc ∈ s.trace → a < s.nextAddr
  del_lt : ∀ a, Event.deleteFrame a ∈ s.trace → a < s.nextAddr
  not_deleted : ∀ e ∈ s.m_Frames, Event.deleteFrame e.2.addr ∉ s.trace
  new_unique : ∀ a uc uc2, Event.newFrame a uc ∈ s.trace → Event.newFrame a uc2 ∈ s.trace →
    uc = uc2
  built : ∀ e ∈ s.m_Frames, e.2.obj.m_pMesh.isSome = true ∧
    [Event.callGetFrame e.1 e.2.obj.m_pAABBTree.isSome,
     Event.newFrame e.2.addr e.2.obj.m_pAABBTree.isSome,
     Event.getMesh e.1 e.2.addr] <:+: s.trace

end TMainForm

/-! ## `QR_Cache<T, U>` -/

/-- The type `ITfOnAdd`: a handler that returns nothing. -/
abbrev ITfOnAdd (T U : Type) := T → U → Unit

/-- The type `ITfOnDelete`: the handler receives the value by reference; it returns its verdict and the
value as it leaves it. -/
abbrev ITfOnDelete (T U : Type) := T → U → Bool × U

/-- A handler invocation, with the arguments it was given. -/
inductive HandlerCall (T U : Type) where
  | onAdd (key : T) (value : U)
  | onDelete (key : T) (value : U)
deriving DecidableEq, Repr

/-- The class `QR_Cache<T, U>`: the dictionary, the two handlers (`NULL` when not set) and the
handler invocations so far.  The member `m_DoOwnValue` is never read or written and is left out.
A handler is a function of its arguments: it does not call back into the cache. -/
structure QR_Cache (T U : Type) where
  m_Cache : List (T × U)
  m_fOnAdd : Option (ITfOnAdd T U)
  m_fOnDelete : Option (ITfOnDelete T U)
  calls : List (HandlerCall T U)

namespace QR_Cache

variable {T U : Type} [LinearOrder T]

/-- The constructor `QR_Cache::QR_Cache()`. -/
def ctor : QR_Cache T U := { m_Cache := [], m_fOnAdd := none, m_fOnDelete := none, calls := [] }

/-- The method `QR_Cache::Set_OnAdd`. -/
def Set_OnAdd (c : QR_Cache T U) (fHandle : Option (ITfOnAdd T U)) : QR_Cache T U :=
  { c with m_fOnAdd := fHandle }

/-- The method `QR_Cache::Set_OnDelete`. -/
def Set_OnDelete (c : QR_Cache T U) (fHandle : Option (ITfOnDelete T U)) : QR_Cache T U :=
  { c with m_fOnDelete := fHandle }

/-- The call `m_fOnDelete(it->first, it->second)` on the entry `(key, old)`: the invocation is
recorded and the stored value becomes what the handler left in it. -/
def callOnDelete (c : QR_Cache T U) (fOnDelete : ITfOnDelete T U) (key : T) (old : U) :
    Bool × QR_Cache T U :=
  let r := fOnDelete key old
  (r.1, { c with m_Cache := c.m_Cache.map (fun e => if e.1 = key then (e.1, r.2) else e),
                 calls := c.calls ++ [HandlerCall.onDelete key old] })

/-- The second half of `Add`: notify `OnAdd` when it is set, store, return `true`. -/
def addItem (c : QR_Cache T U) (key : T) (value : U) : Bool × QR_Cache T U :=
  -- notify that item is about to be added
  let c : QR_Cache T U :=
    match c.m_fOnAdd with
    | some _ => { c with calls := c.calls ++ [HandlerCall.onAdd key value] }
    | none => c
  -- add item to cache
  (true, { c with m_Cache := StdMap.assign c.m_Cache key value })

/-- The method `QR_Cache::Add(const T& key, const U& value)`. -/
def Add (c : QR_Cache T U) (key : T) (value : U) : Bool × QR_Cache T U :=
  -- search for existing item in cache
  match StdMap.find c.m_Cache key with
  | some old =>
    -- notify that previous item is about to be deleted
    match c.m_fOnDelete with
    | some fOnDelete =>
      let r := callOnDelete c fOnDelete key old
      if !r.1 then (false, r.2)
      else
        -- delete previous item from cache
        addItem { r.2 with m_Cache := StdMap.erase r.2.m_Cache key } key value
    | none => addItem { c with m_Cache := StdMap.erase c.m_Cache key } key value
  | none => addItem c key value

/-- The method `QR_Cache::Delete(T key)`. -/
def Delete (c : QR_Cache T U) (key : T) : QR_Cache T U :=
  -- search for existing item in cache
  match StdMap.find c.m_Cache key with
  | none => c
  | some old =>
    -- notify that item is about to be deleted
    match c.m_fOnDelete with
    | some fOnDelete =>
      let r := callOnDelete c fOnDelete key old
      if !r.1 then r.2
      else { r.2 with m_Cache := StdMap.erase r.2.m_Cache key }
    | none => { c with m_Cache := StdMap.erase c.m_Cache key }

/-- The method `QR_Cache::Get(const T& key, U& value) const`: the result, the content of `value` after the
call, and the cache after the call. -/
def Get (c : QR_Cache T U) (key : T) (value : U) : Bool × U × QR_Cache T U :=
  -- search for existing item in cache
  match StdMap.find c.m_Cache key with
  | none => (false, value, c)
  -- get item from cache
  | some stored => (true, stored, c)

end QR_Cache

namespace QR_Cache

variable {T U : Type} [LinearOrder T]

/-- The loop of `QR_Cache::~QR_Cache()` over the entries still to visit: each entry is announced
to `OnDelete` when the handler is set, and what the handler returns is dropped. -/
def notifyAll : List (T × U) → QR_Cache T U → QR_Cache T U
  | [], c => c
  | e :: rest, c =>
    match c.m_fOnDelete with
    | some fOnDelete => notifyAll rest (callOnDelete c fOnDelete e.1 e.2).2
    | none => notifyAll rest c

/-- The destructor `QR_Cache::~QR_Cache()`: the notification loop, then `m_Cache.clear()`. -/
def dtor (c : QR_Cache T U) : QR_Cache T U :=
  { notifyAll c.m_Cache c with m_Cache := [] }

/-- The arguments of the `OnAdd` invocations so far, oldest first. -/
def onAddCalls (c : QR_Cache T U) : List (T × U) :=
  c.calls.filterMap (fun e => match e with
    | HandlerCall.onAdd key value => some (key, value)
    | HandlerCall.onDelete _ _ => none)

end QR_Cache

/-! ## Collision detection in the demos -/

/-- The loop shared by `DrawScene` (AABB tree demo) and `DetectAndDrawCollisions` (MD2, MD3):
`for (i = 0; i < polygonCount; ++i) if (GetRayPolygonCollision(pRay, polygons[i]))
\x7b polygonToDraw.Length += 1; polygonToDraw[polygonToDraw.Length - 1] = polygons[i]; \x7d`,
from index `i` on, with at most `steps` iterations left.  The exact test
`GetRayPolygonCollision` (library code) is a parameter. -/
def collectHitsLoop {Ray Polygon : Type} (GetRayPolygonCollision : Ray → Polygon → Bool)
    (pRay : Ray) (polygons : List Polygon) : Nat → Nat → List Polygon → List Polygon
  | 0, _, polygonToDraw => polygonToDraw
  | steps + 1, i, polygonToDraw =>
    if h : i < polygons.length then
      collectHitsLoop GetRayPolygonCollision pRay polygons steps (i + 1)
        (if GetRayPolygonCollision pRay (polygons.get ⟨i, h⟩) then
          polygonToDraw ++ [polygons.get ⟨i, h⟩]
        else polygonToDraw)
    else polygonToDraw

/-- The whole loop: `polygonCount` iterations starting at `i = 0` with an empty
`polygonToDraw`. -/
def collectHits {Ray Polygon : Type} (GetRayPolygonCollision : Ray → Polygon → Bool) (pRay : Ray)
    (polygons : List Polygon) : List Polygon :=
  collectHitsLoop GetRayPolygonCollision pRay polygons polygons.length 0 []

namespace AABB

/-- The collision part of `TMainForm::DrawScene` of the AABB tree demo, for the ray built from
the mouse position: the candidates `Resolve` wrote into `polygons` and the list `polygonToDraw`
handed to the drawing loop.  `Resolve` (library code) is a parameter. -/
def DrawScene {Tree Ray Polygon : Type} (Resolve : Tree → Ray → List Polygon)
    (GetRayPolygonCollision : Ray → Polygon → Bool) (m_pAABBTree : Tree) (pRay : Ray) :
    List Polygon × List Polygon :=
  -- get polygons to check for collision by resolving AABB tree
  let polygons := Resolve m_pAABBTree pRay
  -- iterate through polygons to check
  (polygons, collectHits GetRayPolygonCollision pRay polygons)

end AABB

namespace MD3

/-- The collision part of `TMainForm::DetectAndDrawCollisions` of the MD3 demo: `none` when the
function returns before resolving the tree, otherwise the list `polygonToDraw`. -/
def DetectAndDrawCollisions {Tree Ray Polygon : Type} (Resolve : Tree → Ray → List Polygon)
    (GetRayPolygonCollision : Ray → Polygon → Bool) (pAABBTree : Option Tree) (collisions : Bool)
    (pRay : Ray) : Option (List Polygon) :=
  match pAABBTree with
  | none => none
  | some tree =>
    if !collisions then none
    else some (collectHits GetRayPolygonCollision pRay (Resolve tree pRay))

end MD3

namespace MD2

/-- The collision part of `TMainForm::DetectAndDrawCollisions` of the MD2 demo: `none` when the
function returns before resolving the tree, otherwise the list `polygonToDraw`. -/
def DetectAndDrawCollisions {Tree Ray Polygon : Type} (Resolve : Tree → Ray → List Polygon)
    (GetRayPolygonCollision : Ray → Polygon → Bool) (m_pOptions : TOptions)
    (pAABBTree : Option Tree) (pRay : Ray) : Option (List Polygon) :=
  match pAABBTree with
  | none => none
  | some tree =>
    if !Checked m_pOptions.ckShowCollisions then none
    else some (collectHits GetRayPolygonCollision pRay (Resolve tree pRay))

end MD2

/-! ## The MD2 demo: `OnDrawModelItem` and the options of `LoadModel` -/

namespace TMainForm

/-- The indices `GetFrame` was called with, oldest first. -/
def getFrameCalls {Mesh Tree : Type} (s : TMainForm Mesh Tree) : List Nat :=
  s.trace.filterMap (fun e => match e with
    | Event.callGetFrame index _ => some index
    | _ => none)

end TMainForm

namespace MD2

/-- A C++ `double`: a number, an infinity or a NaN.  The numbers are taken as rationals, which
contain every finite `double`; the comparisons with `0.0` and `1.0` below are exact on them. -/
inductive Double where
  /-- a finite value -/
  | num (x : ℚ)
  /-- the value `+inf` -/
  | posInf
  /-- the value `-inf` -/
  | negInf
  /-- a NaN -/
  | nan
deriving DecidableEq, Repr

/-- The comparison `x <= 0.0`, which is false on a NaN. -/
def Double.leZero : Double → Bool
  | Double.num x => decide (x ≤ 0)
  | Double.posInf => false
  | Double.negInf => true
  | Double.nan => false

/-- The comparison `x >= 1.0`, which is false on a NaN. -/
def Double.geOne : Double → Bool
  | Double.num x => decide (x ≥ 1)
  | Double.posInf => true
  | Double.negInf => false
  | Double.nan => false

/-- The members of `TQRModelOptions` that `LoadModel` sets. -/
inductive EQRModelOptions where
  | EQR_MO_Without_Normals
  | EQR_MO_Create_Cache
  | EQR_MO_Dynamic_Frames_No_Cache
  | EQR_MO_Dynamic_Frames
deriving DecidableEq, Repr

/-- The members of `TQRFramedModelOptions` that `LoadModel` sets. -/
inductive EQRFramedModelOptions where
  | EQR_FO_Show_Default_Frame
  | EQR_FO_Start_Anim_When_Gesture_Is_Ready
  | EQR_FO_Interpolate
deriving DecidableEq, Repr

/-- The options form as `LoadModel` reads it: the controls of `TOptions` and, in addition, the
item index of the cache radio group and two more check boxes. -/
structure TOptionsForm extends TOptions where
  rgCacheOptions_ItemIndex : Int
  ckShowDefaultFrame : Option TCheckBox
  ckRunGestureWhenReady : Option TCheckBox
deriving DecidableEq, Repr

/-- The part of `TMainForm::LoadModel` (MD2) that fills `modelOptions` and `framedModelOptions`
(a set is the list of its members in the order they were added with `<<`); `none` is the
`return false` of the `default:` label. -/
def LoadModelOptions (m_pOptions : TOptionsForm) :
    Option (List EQRModelOptions × List EQRFramedModelOptions) :=
  -- set basic configuration
  let modelOptions := [EQRModelOptions.EQR_MO_Without_Normals]
  let framedModelOptions : List EQRFramedModelOptions := []
  -- dispatch caching type
  let dispatched : Option (List EQRModelOptions × List EQRFramedModelOptions) :=
    if m_pOptions.rgCacheOptions_ItemIndex = 0 then
      let modelOptions := modelOptions ++ [EQRModelOptions.EQR_MO_Create_Cache]
      -- do show default frame while cache is created?
      let framedModelOptions :=
        if Checked m_pOptions.ckShowDefaultFrame then
          framedModelOptions ++ [EQRFramedModelOptions.EQR_FO_Show_Default_Frame]
        else framedModelOptions
      -- do run currently selected gesture when available?
      let framedModelOptions :=
        if Checked m_pOptions.ckRunGestureWhenReady then
          framedModelOptions ++ [EQRFramedModelOptions.EQR_FO_Start_Anim_When_Gesture_Is_Ready]
        else framedModelOptions
      some (modelOptions, framedModelOptions)
    else if m_pOptions.rgCacheOptions_ItemIndex = 1 then
      some (modelOptions ++ [EQRModelOptions.EQR_MO_Dynamic_Frames_No_Cache], framedModelOptions)
    else if m_pOptions.rgCacheOptions_ItemIndex = 2 then
      some (modelOptions ++ [EQRModelOptions.EQR_MO_Dynamic_Frames], framedModelOptions)
    else if m_pOptions.rgCacheOptions_ItemIndex = 3 then
      some (modelOptions, framedModelOptions)
    else none
  match dispatched with
  | none => none
  | some (modelOptions, framedModelOptions) =>
    -- if shader is used, interpolation will be done on the shader side
    if !ptrToBool m_pOptions.ckUseShader then
      some (modelOptions, framedModelOptions ++ [EQRFramedModelOptions.EQR_FO_Interpolate])
    else some (modelOptions, framedModelOptions)

end MD2

/-! ## Meshes -/

/-- The primitive topologies the demos give to `TQRVertex::m_Type`. -/
inductive EQRVertexType where
  | EQR_VT_Triangles
  | EQR_VT_TriangleStrip
deriving DecidableEq, Repr

/-- The coordinate type the demos give to `TQRVertex::m_CoordType`. -/
inductive EQRVertexCoordType where
  | EQR_VC_XYZ
deriving DecidableEq, Repr

/-- The members of the set `TQRVertex::m_Format` the demos use. -/
inductive EQRVertexFormat where
  | EQR_VF_Normals
  | EQR_VF_TexCoords
  | EQR_VF_Colors
deriving DecidableEq, Repr

/-- The record `TQRVertex` as the demos use it: one vertex buffer with its stride, topology,
format and coordinate type.  A `float` component is a rational. -/
structure TQRVertex where
  m_Stride : Nat
  m_Type : EQRVertexType
  m_Format : List EQRVertexFormat
  m_CoordType : EQRVertexCoordType
  m_Buffer : List ℚ
deriving DecidableEq, Repr

/-- The type `TQRMesh`: a dynamic array of vertex buffers. -/
abbrev TQRMesh := List TQRVertex

/-! ## Polygons

The demos read the members of the library records `TQRVector3D` and `TQRPolygon`; a `float`
member is a rational. -/

/-- The record `TQRVector3D`, with the members `X`, `Y`, `Z` the demos read. -/
structure TQRVector3D where
  X : ℚ
  Y : ℚ
  Z : ℚ
deriving DecidableEq, Repr

/-- The record `TQRPolygon`, with the members `Vertex1`, `Vertex2`, `Vertex3` the demos read. -/
structure TQRPolygon where
  Vertex1 : TQRVector3D
  Vertex2 : TQRVector3D
  Vertex3 : TQRVector3D
deriving DecidableEq, Repr

/-! ## `QR_MemoryTools::CompareBuffers` -/

namespace QR_MemoryTools

/-- The enumeration `IEBufferCompType`, with the three values `CompareBuffers` dispatches on (the
`default:` label, which throws, is reached by no value of the enumeration). -/
inductive IEBufferCompType where
  | IE_BC_FromStartToEnd
  | IE_BC_FromEndToStart
  | IE_BC_Symmetric
deriving DecidableEq, Repr

/-- The record `QR_MemoryTools::IBuffer`: a pointer to the bytes (`NULL` or the memory it points
to) and the length the owner declares. -/
structure IBuffer where
  m_pBuffer : Option (List Nat)
  m_Length : Nat
deriving DecidableEq, Repr

/-- The test `memcmp(p + offset, q + offset, length) == 0`. -/
def sameBlock (p q : List Nat) (offset length : Nat) : Bool :=
  decide ((p.drop offset).take length = (q.drop offset).take length)

/-- The loop `for (i = 0; i < count; ++i) switch (type) ...` of `CompareBuffers` from index `i`
on, with at most `steps` iterations left; the result is what the function returns. -/
def compareLoop (p q : List Nat) (m_Length : Nat) (type : IEBufferCompType)
    (blockLength count : Nat) : Nat → Nat → Bool
  | 0, _ => true
  | steps + 1, i =>
    if i < count then
      match type with
      | IEBufferCompType.IE_BC_FromStartToEnd =>
        -- calculate next offset
        let offset := i * blockLength
        -- get next block length to compare
        let length := min blockLength (m_Length - offset)
        -- is memory block identical?
        if !sameBlock p q offset length then false
        else compareLoop p q m_Length type blockLength count steps (i + 1)
      | IEBufferCompType.IE_BC_FromEndToStart =>
        -- calculate next offset
        let offset := ((count - i) - 1) * blockLength
        -- get next block length to compare
        let length := min blockLength (m_Length - offset)
        -- is memory block identical?
        if !sameBlock p q offset length then false
        else compareLoop p q m_Length type blockLength count steps (i + 1)
      | IEBufferCompType.IE_BC_Symmetric =>
        -- calculate next start and end offsets
        let startOffset := i * blockLength
        let endOffset := ((count - i) - 1) * blockLength
        -- middle of the buffer is reached?
        if startOffset ≥ endOffset ∧ m_Length > blockLength then true
        else
          -- get next start and end block lengths to compare
          let startLength := min blockLength (m_Length - startOffset)
          let endLength := min blockLength (m_Length - endOffset)
          -- is start memory block identical?
          if !sameBlock p q startOffset startLength then false
          -- is end memory block identical?
          else if !sameBlock p q endOffset endLength then false
          else compareLoop p q m_Length type blockLength count steps (i + 1)
    else true

/-- The function `QR_MemoryTools::CompareBuffers`; `none` stands for the division by a zero
`blockLength`, which the function reaches once both pointers are set and the lengths agree. -/
def CompareBuffers (buffer1 buffer2 : IBuffer) (type : IEBufferCompType) (blockLength : Nat) :
    Option Bool :=
  match buffer1.m_pBuffer, buffer2.m_pBuffer with
  -- are buffers defined? return true only if both buffers are NULL
  | none, none => some true
  | none, some _ => some false
  | some _, none => some false
  | some p, some q =>
    -- are lengths equals?
    if buffer1.m_Length ≠ buffer2.m_Length then some false
    else if blockLength = 0 then none
    else
      -- calculate memory block count to compare
      let count := buffer1.m_Length / blockLength +
        (if buffer1.m_Length % blockLength ≠ 0 then 1 else 0)
      -- iterate through memory blocks to compare
      some (compareLoop p q buffer1.m_Length type blockLength count count 0)

end QR_MemoryTools

/-! ## The highlight mesh of `DetectAndDrawCollisions` -/

/-- The sequence of assignments `buffer[w.1] = w.2`, applied in order. -/
def applyWrites (buffer : List ℚ) (writes : List (Nat × ℚ)) : List ℚ :=
  writes.foldl (fun b w => b.set w.1 w.2) buffer

/-- The 21 assignments `mesh[0].m_Buffer[offset + k] = ...` of one turn of the loop that builds
the polygon to show in `DetectAndDrawCollisions` (MD2 and MD3, same text), as pairs of index
and value in program order.  The colour constants `0.8f`, `0.12f`, `0.2f` are the rationals
`4/5`, `3/25`, `1/5`. -/
def highlightWrites (offset : Nat) (polygon : TQRPolygon) : List (Nat × ℚ) :=
  [(offset, polygon.Vertex1.X),
   (offset + 1, polygon.Vertex1.Y),
   (offset + 2, polygon.Vertex1.Z),
   (offset + 3, 1),
   (offset + 4, 0),
   (offset + 5, 0),
   (offset + 6, 1),
   (offset + 7, polygon.Vertex2.X),
   (offset + 8, polygon.Vertex2.Y),
   (offset + 9, polygon.Vertex2.Z),
   (offset + 10, 4 / 5),
   (offset + 11, 0),
   (offset + 12, 1 / 5),
   (offset + 13, 1),
   (offset + 14, polygon.Vertex3.X),
   (offset + 15, polygon.Vertex3.Y),
   (offset + 16, polygon.Vertex3.Z),
   (offset + 17, 1),
   (offset + 18, 3 / 25),
   (offset + 19, 1 / 5),
   (offset + 20, 1)]

/-- The loop `for (i = 0; i < polygonToDrawCount; ++i) \x7b ...; offset += (m_Stride * 3); \x7d`
from index `i` and offset `offset` on, with at most `steps` iterations left: all its
assignments in program order. -/
def highlightLoop (polygonToDraw : List TQRPolygon) (m_Stride : Nat) :
    Nat → Nat → Nat → List (Nat × ℚ)
  | 0, _, _ => []
  | steps + 1, i, offset =>
    if h : i < polygonToDraw.length then
      -- build polygon to show
      highlightWrites offset (polygonToDraw.get ⟨i, h⟩) ++
        -- go to next polygon
        highlightLoop polygonToDraw m_Stride steps (i + 1) (offset + m_Stride * 3)
    else []

/-- The mesh `DetectAndDrawCollisions` (MD2 and MD3) builds from the list `polygonToDraw` and
hands to `QR_OpenGLHelper::Draw`; `none` when the list is empty and the function returns.  The
buffer starts as `polygonToDrawCount * (m_Stride * 3)` zeros. -/
def HighlightMesh (polygonToDraw : List TQRPolygon) : Option TQRMesh :=
  let polygonToDrawCount := polygonToDraw.length
  -- found polgons to draw?
  if polygonToDrawCount = 0 then none
  else
    let m_Stride := 7
    some [{ m_Type := EQRVertexType.EQR_VT_Triangles,
            m_CoordType := EQRVertexCoordType.EQR_VC_XYZ,
            m_Stride := m_Stride,
            m_Format := [EQRVertexFormat.EQR_VF_Colors],
            m_Buffer :=
              applyWrites (List.replicate (polygonToDrawCount * (m_Stride * 3)) 0)
                (highlightLoop polygonToDraw m_Stride polygonToDrawCount 0 0) }]

/-! ## `CreateSphere` of the AABB tree demo -/

namespace AABB

/-- The statement `buffer.Length = n` on a dynamic array: the first `n` elements are kept, new
elements are zero. -/
def setLength (buffer : List ℚ) (n : Nat) : List ℚ :=
  buffer.take n ++ List.replicate (n - buffer.length) 0

/-- The assignments that put one vertex of the strip into the buffer, from `index` on, and the
value of `index` after them: the position, then the normal, the texture coordinates and the
colour when `vertex.m_Format` contains them.  `CreateSphere` has this block twice in the body of
its inner loop. -/
def sphereVertexWrites (m_Format : List EQRVertexFormat) (index : Nat) (position : ℚ × ℚ × ℚ)
    (normal : ℚ × ℚ × ℚ) (texCoords : ℚ × ℚ) (color : Nat) : List (Nat × ℚ) × Nat :=
  -- set vertex data
  let writes := [(index, position.1), (index + 1, position.2.1), (index + 2, position.2.2)]
  let index := index + 3
  -- do generate normals?
  let (writes, index) :=
    if EQRVertexFormat.EQR_VF_Normals ∈ m_Format then
      (writes ++ [(index, normal.1), (index + 1, normal.2.1), (index + 2, normal.2.2)],
       index + 3)
    else (writes, index)
  -- do generate texture coordinates?
  let (writes, index) :=
    if EQRVertexFormat.EQR_VF_TexCoords ∈ m_Format then
      (writes ++ [(index, texCoords.1), (index + 1, texCoords.2)], index + 2)
    else (writes, index)
  -- do generate colors?
  let (writes, index) :=
    if EQRVertexFormat.EQR_VF_Colors ∈ m_Format then
      (writes ++
        [(index, ((color / 2 ^ 24 % 256 : Nat) : ℚ) / 255),
         (index + 1, ((color / 2 ^ 16 % 256 : Nat) : ℚ) / 255),
         (index + 2, ((color / 2 ^ 8 % 256 : Nat) : ℚ) / 255),
         (index + 3, ((color % 256 : Nat) : ℚ) / 255)],
       index + 4)
    else (writes, index)
  (writes, index)

/-- The inner loop `for (j = 0; j <= stacks; ++j)` of `CreateSphere` for slice `i`, from `j`
and `index` on, with at most `steps` iterations left: its assignments in program order and the
value of `index` when it ends.  The library functions `sinf` and `cosf` are parameters.  The
`int` variables `j` and `index` are natural numbers here: `sphereSliceLoop` lets the loop start
only when `stacks + 1` fits an `int`, which bounds `j`, and it checks every assignment against
the length of the buffer in program order. -/
def sphereStackLoop (sinf cosf : ℚ → ℚ) (radius : ℚ) (slices nstacks color : Nat)
    (m_Format : List EQRVertexFormat) (minorStep r0 r1 z0 z1 : ℚ) (i : Nat) :
    Nat → Nat → Nat → List (Nat × ℚ) × Nat
  | 0, _, index => ([], index)
  | steps + 1, j, index =>
    if j ≤ nstacks then
      let c := (j : ℚ) * minorStep
      let x := cosf c
      let y := sinf c
      let first := sphereVertexWrites m_Format index (x * r0, y * r0, z0)
        (x * r0 / radius, y * r0 / radius, z0 / radius)
        ((j : ℚ) / (nstacks : ℚ), (i : ℚ) / (slices : ℚ)) color
      let second := sphereVertexWrites m_Format first.2 (x * r1, y * r1, z1)
        (x * r1 / radius, y * r1 / radius, z1 / radius)
        ((j : ℚ) / (nstacks : ℚ), ((i : ℚ) + 1) / (slices : ℚ)) color
      let rest := sphereStackLoop sinf cosf radius slices nstacks color m_Format minorStep
        r0 r1 z0 z1 i steps (j + 1) second.2
      (first.1 ++ second.1 ++ rest.1, rest.2)
    else ([], index)

/-- The assignments into the buffer of slice `i` and the final value of `index`: the values of
the slice, then the inner loop from `j = 0`, `index = 0`. -/
def sphereSliceWrites (sinf cosf : ℚ → ℚ) (pi radius : ℚ) (slices nstacks color : Nat)
    (m_Format : List EQRVertexFormat) (i : Nat) : List (Nat × ℚ) × Nat :=
  let majorStep := pi / (slices : ℚ)
  let minorStep := 2 * pi / (nstacks : ℚ)
  -- calculate values for next slice
  let a := (i : ℚ) * majorStep
  let b := a + majorStep
  let r0 := radius * sinf a
  let r1 := radius * sinf b
  let z0 := radius * cosf a
  let z1 := radius * cosf b
  sphereStackLoop sinf cosf radius slices nstacks color m_Format minorStep r0 r1 z0 z1 i
    (nstacks + 1) 0 0

/-- The largest value of an `int` (32 bits). -/
def INT_MAX : Nat := 2 ^ 31 - 1

/-- The conversion of a `std::size_t` value to `int`: the low 32 bits, read as a signed
number. -/
def toInt (x : Nat) : Int :=
  if x % 2 ^ 32 < 2 ^ 31 then ((x % 2 ^ 32 : Nat) : Int) else ((x % 2 ^ 32 : Nat) : Int) - 2 ^ 32

/-- The assignments `buffer[w.1] = w.2`, applied in order; `none` as soon as one of them is
outside the buffer. -/
def applyWritesChecked (buffer : List ℚ) : List (Nat × ℚ) → Option (List ℚ)
  | [] => some buffer
  | w :: ws =>
    if w.1 < buffer.length then applyWritesChecked (buffer.set w.1 w.2) ws else none

/-- The outer loop `for (i = 0; i <= slices; ++i)` of `CreateSphere` from `i` on, with at most
`steps` iterations left: each turn appends to `mesh` a copy of `vertex` whose buffer is resized
to `fanLength` and then filled.  `w` is the width of `std::size_t`: the product
`(stacks + 1) * stride * 2` is a `std::size_t` and is then narrowed to the `int fanLength`.
The result is `none` when an `int` overflows (`stacks + 1`, `mesh.Length += 1`, `++i`), when
`fanLength` is negative, or when an assignment is outside the buffer. -/
def sphereSliceLoop (w : Nat) (sinf cosf : ℚ → ℚ) (pi radius : ℚ) (slices nstacks color : Nat)
    (vertex : TQRVertex) : Nat → Nat → TQRMesh → Option TQRMesh
  | 0, _, mesh => some mesh
  | steps + 1, i, mesh =>
    if i ≤ slices then
      -- calculate current index and slice fan length
      if INT_MAX < nstacks + 1 then none
      else
        let fanLength : Int := toInt ((nstacks + 1) * vertex.m_Stride * 2 % 2 ^ w)
        -- add new mesh in output array
        if INT_MAX < mesh.length + 1 then none
        -- populate mesh
        else if fanLength < 0 then none
        else
          match applyWritesChecked (setLength vertex.m_Buffer fanLength.toNat)
              (sphereSliceWrites sinf cosf pi radius slices nstacks color vertex.m_Format
                i).1 with
          | none => none
          | some buffer =>
            if INT_MAX < i + 1 then none
            else
              sphereSliceLoop w sinf cosf pi radius slices nstacks color vertex steps (i + 1)
                (mesh ++ [{ vertex with m_Buffer := buffer }])
    else some mesh

/-- The method `TMainForm::CreateSphere` of the AABB tree demo, for `slices ≥ 0` and
`stacks ≥ 0` (the parameter `stacks` is written `nstacks` here): the vertex as the function
leaves it and the mesh with the new buffers, or `none` when an `int` overflows or an assignment
falls outside its buffer (see `sphereSliceLoop`).  `w` is the width of `std::size_t`.  The
library method `TQRVertex::CalculateStride`, the functions `sinf` and `cosf` and the constant
`pi` are parameters; a `float` is a rational. -/
def CreateSphere (w : Nat) (sinf cosf : ℚ → ℚ) (pi : ℚ) (CalculateStride : TQRVertex → Nat)
    (radius : ℚ) (slices nstacks color : Nat) (vertex : TQRVertex) (mesh : TQRMesh) :
    Option (TQRVertex × TQRMesh) :=
  -- configure vertex format
  let vertex := { vertex with m_CoordType := EQRVertexCoordType.EQR_VC_XYZ }
  let vertex := { vertex with m_Type := EQRVertexType.EQR_VT_TriangleStrip }
  let vertex := { vertex with m_Stride := CalculateStride vertex }
  -- iterate through vertex slices
  match sphereSliceLoop w sinf cosf pi radius slices nstacks color vertex (slices + 1) 0
      mesh with
  | none => none
  | some mesh => some (vertex, mesh)

/-- The number of floats `CreateSphere` writes for one vertex of the given format: `3`, plus `3`
for normals, `2` for texture coordinates and `4` for colours. -/
def vertexSize (m_Format : List EQRVertexFormat) : Nat :=
  3 + (if EQRVertexFormat.EQR_VF_Normals ∈ m_Format then 3 else 0) +
    (if EQRVertexFormat.EQR_VF_TexCoords ∈ m_Format then 2 else 0) +
    (if EQRVertexFormat.EQR_VF_Colors ∈ m_Format then 4 else 0)

end AABB

/-! ## Concrete instances used to exercise the definitions -/

namespace Example

/-- A provider whose meshes and trees are the list of indices they were built for. -/
def model : TQRModel (List Nat) (List Nat) :=
  { GetMeshCount := 2, meshOf := fun i _ => [i], treeOf := fun i _ _ => [i] }

/-- A provider with a single mesh. -/
def smallModel : TQRModel (List Nat) (List Nat) :=
  { GetMeshCount := 1, meshOf := fun i _ => [i], treeOf := fun i _ _ => [i] }

/-- A form whose cache holds frame `0`. -/
def formWithFrame0 : TMainForm (List Nat) (List Nat) :=
  (TMainForm.GetFrame TMainForm.init 0 model true).2

/-- An options form with both boxes unchecked. -/
def options : MD2.TOptions :=
  { ckUseShader := some { Checked := false }, ckShowCollisions := some { Checked := false } }

/-- The form after `GetFrame(0)` and `GetFrame(1)` on the empty cache. -/
def formWithFrames01 : TMainForm (List Nat) (List Nat) :=
  TMainForm.run TMainForm.init
    [TMainForm.Op.getFrame 0 model true, TMainForm.Op.getFrame 1 model false]

/-- An `OnDelete` handler that refuses every deletion and leaves the value alone. -/
def refuse : ITfOnDelete Nat Nat := fun _ v => (false, v)

/-- A cache holding `1 ↦ 10` with the refusing `OnDelete` handler. -/
def guarded : QR_Cache Nat Nat :=
  { m_Cache := [(1, 10)], m_fOnAdd := none, m_fOnDelete := some refuse, calls := [] }

/-- A cache holding `1 ↦ 10` and `3 ↦ 30` without handlers. -/
def plain : QR_Cache Nat Nat :=
  { m_Cache := [(1, 10), (3, 30)], m_fOnAdd := none, m_fOnDelete := none, calls := [] }

/-- An `OnDelete` handler that allows every deletion. -/
def allow : ITfOnDelete Nat Nat := fun _ v => (true, v)

/-- A cache holding `1 ↦ 10` and `3 ↦ 30` with an `OnAdd` handler and the allowing `OnDelete`. -/
def observed : QR_Cache Nat Nat :=
  { m_Cache := [(1, 10), (3, 30)], m_fOnAdd := some (fun _ _ => ()), m_fOnDelete := some allow,
    calls := [] }

/-- An options form with the show-collisions box checked. -/
def optionsCollisions : MD2.TOptions :=
  { ckUseShader := some { Checked := false }, ckShowCollisions := some { Checked := true } }

/-- The options form with every box unchecked and the fourth cache option selected. -/
def optionsForm : MD2.TOptionsForm :=
  { ckUseShader := some { Checked := false }, ckShowCollisions := some { Checked := false },
    rgCacheOptions_ItemIndex := 3,
    ckShowDefaultFrame := some { Checked := false },
    ckRunGestureWhenReady := some { Checked := false } }

/-- The unit triangle `(0,0,0)`, `(1,0,0)`, `(0,1,0)`. -/
def unitTriangle : TQRPolygon :=
  { Vertex1 := ⟨0, 0, 0⟩, Vertex2 := ⟨1, 0, 0⟩, Vertex3 := ⟨0, 1, 0⟩ }

/-- A buffer of three zero bytes. -/
def zeros3 : QR_MemoryTools.IBuffer := { m_pBuffer := some [0, 0, 0], m_Length := 3 }

/-- A buffer of three bytes that differs from `zeros3` in the middle byte only. -/
def middle3 : QR_MemoryTools.IBuffer := { m_pBuffer := some [0, 1, 0], m_Length := 3 }

/-- A buffer of five bytes. -/
def bytes5 : QR_MemoryTools.IBuffer := { m_pBuffer := some [1, 2, 3, 4, 5], m_Length := 5 }

/-- A buffer of five bytes that differs from `bytes5` in the last byte only. -/
def bytes5last : QR_MemoryTools.IBuffer := { m_pBuffer := some [1, 2, 3, 4, 6], m_Length := 5 }

/-- A vertex description with colours only, as the AABB tree demo uses. -/
def colouredVertex : TQRVertex :=
  { m_Stride := 0, m_Type := EQRVertexType.EQR_VT_Triangles,
    m_Format := [EQRVertexFormat.EQR_VF_Colors],
    m_CoordType := EQRVertexCoordType.EQR_VC_XYZ, m_Buffer := [] }

end Example

/-! ## Facts about the `std::map` model -/

namespace StdMap

variable {K V : Type} [LinearOrder K]

theorem find_insertSorted_self (k : K) (v : V) (m : List (K × V)) (h : find m k = none) :
    find (insertSorted k v m) k = some v := by
  induction m with
  | nil => simp [insertSorted, find]
  | cons e m ih =>
    simp only [find] at h
    by_cases hek : e.1 = k
    · simp [hek] at h
    · simp only [hek, if_false] at h
      simp only [insertSorted]
      by_cases hlt : k < e.1
      · simp [hlt, find]
      · simp [hlt, find, hek, ih h]

theorem find_insertSorted_ne (k j : K) (v : V) (m : List (K × V)) (hj : j ≠ k) :
    find (insertSorted k v m) j = find m j := by
  induction m with
  | nil => simp [insertSorted, find, Ne.symm hj]
  | cons e m ih =>
    simp only [insertSorted]
    by_cases hlt : k < e.1
    · simp [hlt, find, Ne.symm hj]
    · simp [hlt, find, ih]

theorem find_overwrite (k j : K) (v : V) (m : List (K × V)) :
    find (m.map (fun e => if e.1 = k then (e.1, v) else e)) j =
      if j = k then (find m k).map (fun _ => v) else find m j := by
  induction m with
  | nil => simp [find]
  | cons e m ih =>
    obtain ⟨a, b⟩ := e
    simp only [List.map_cons, find]
    by_cases hak : a = k
    · by_cases hjk : j = k
      · simp [hak, hjk]
      · have haj : ¬ k = j := fun h => hjk h.symm
        simp [hak, hjk, haj, ih]
    · by_cases hjk : j = k
      · rw [hjk] at ih
        simp [hak, hjk, ih]
      · by_cases haj : a = j
        · simp [hak, haj, hjk]
        · simp [hak, haj, hjk, ih]

theorem find_assign_self (m : List (K × V)) (k : K) (v : V) :
    find (assign m k v) k = some v := by
  unfold assign
  cases h : find m k with
  | none => simpa using find_insertSorted_self k v m h
  | some old => simp [find_overwrite, h]

theorem find_assign_ne (m : List (K × V)) (k j : K) (v : V) (hj : j ≠ k) :
    find (assign m k v) j = find m j := by
  unfold assign
  cases h : find m k with
  | none => simpa using find_insertSorted_ne k j v m hj
  | some old => simp [find_overwrite, hj]

theorem find_erase_self (m : List (K × V)) (k : K) : find (erase m k) k = none := by
  induction m with
  | nil => simp [erase, find]
  | cons e m ih =>
    by_cases hek : e.1 = k
    · simp [erase, hek, ih]
    · simp [erase, hek, find, ih]

theorem find_erase_ne (m : List (K × V)) (k j : K) (hj : j ≠ k) :
    find (erase m k) j = find m j := by
  induction m with
  | nil => simp [erase, find]
  | cons e m ih =>
    by_cases hek : e.1 = k
    · have hkj : ¬ k = j := fun h => hj h.symm
      simp [erase, hek, find, ih, hkj]
    · simp [erase, hek, find, ih]

theorem keys_overwrite (k : K) (v : V) (m : List (K × V)) :
    keys (m.map (fun e => if e.1 = k then (e.1, v) else e)) = keys m := by
  induction m with
  | nil => rfl
  | cons e m ih =>
    simp only [keys, List.map_cons] at ih ⊢
    by_cases hek : e.1 = k <;> simp [hek, ih]

theorem find_isSome_iff_mem_keys (m : List (K × V)) (k : K) :
    (find m k).isSome ↔ k ∈ keys m := by
  induction m with
  | nil => simp [find, keys]
  | cons e m ih =>
    simp only [keys, List.map_cons, List.mem_cons, find] at ih ⊢
    by_cases hek : e.1 = k
    · simp [hek]
    · have : ¬ k = e.1 := fun h => hek h.symm
      simp [hek, this, ih]

theorem insertSorted_perm (k : K) (v : V) (m : List (K × V)) :
    (insertSorted k v m).Perm ((k, v) :: m) := by
  induction m with
  | nil => simp [insertSorted]
  | cons e m ih =>
    simp only [insertSorted]
    by_cases hlt : k < e.1
    · simp [hlt]
    · simp only [hlt, if_false]
      exact (List.Perm.cons e ih).trans (List.Perm.swap _ _ _)

theorem assign_of_find_none (m : List (K × V)) (k : K) (v : V) (h : find m k = none) :
    assign m k v = insertSorted k v m := by
  simp [assign, h]

theorem mem_of_find_some (m : List (K × V)) (k : K) (v : V) (h : find m k = some v) :
    (k, v) ∈ m := by
  induction m with
  | nil => simp [find] at h
  | cons e m ih =>
    simp only [find] at h
    by_cases hek : e.1 = k
    · simp only [hek, if_true, Option.some.injEq] at h
      have : e = (k, v) := by rw [← hek, ← h]
      simp [this]
    · simp only [hek, if_false] at h
      exact List.mem_cons_of_mem _ (ih h)

end StdMap

/-! ## The frame cache: `GetFrame` -/

namespace TMainForm

section Trace

variable {Mesh Tree : Type}

theorem getMeshCalls_of_trace (s t : TMainForm Mesh Tree) (es : List Event)
    (h : t.trace = s.trace ++ es) :
    getMeshCalls t =
      getMeshCalls s ++ es.filterMap (fun e => match e with
        | Event.getMesh index _ => some index
        | _ => none) := by
  simp [getMeshCalls, h, List.filterMap_append]

theorem Inv_init : Inv (init : TMainForm Mesh Tree) := by
  constructor <;> simp [init]

theorem Inv_ClearFrames (s : TMainForm Mesh Tree) (hs : Inv s) : Inv (ClearFrames s) := by
  constructor
  · intro e he; simp [ClearFrames] at he
  · simp [ClearFrames]
  · intro a c ha
    simp only [ClearFrames, List.mem_append, List.mem_map] at ha
    rcases ha with ha | ⟨e, _, he⟩
    · exact hs.new_lt a c ha
    · cases he
  · intro a ha
    simp only [ClearFrames, List.mem_append, List.mem_map] at ha
    rcases ha with ha | ⟨e, he, heq⟩
    · exact hs.del_lt a ha
    · cases heq; exact hs.addr_lt e he
  · intro e he; simp [ClearFrames] at he
  · intro a c c2 h1 h2
    simp only [ClearFrames, List.mem_append, List.mem_map] at h1 h2
    rcases h1 with h1 | ⟨e, _, he⟩
    · rcases h2 with h2 | ⟨e, _, he⟩
      · exact hs.new_unique a c c2 h1 h2
      · cases he
    · cases he
  · intro e he; simp [ClearFrames] at he

end Trace

variable {Mesh Tree : Type} [Inhabited Mesh] [Inhabited Tree]

theorem GetFrame_of_find_some (s : TMainForm Mesh Tree) (i : Nat) (pModel : TQRModel Mesh Tree)
    (uc : Bool) (p : IFramePtr Mesh Tree) (h : StdMap.find s.m_Frames i = some p) :
    GetFrame s i pModel uc = (p, { s with trace := s.trace ++ [Event.callGetFrame i uc] }) := by
  simp [GetFrame, h]

theorem GetFrame_of_find_none (s : TMainForm Mesh Tree) (i : Nat) (pModel : TQRModel Mesh Tree)
    (uc : Bool) (h : StdMap.find s.m_Frames i = none) :
    GetFrame s i pModel uc =
      (({ addr := s.nextAddr,
          obj := { m_pMesh := some (pModel.meshOf i default),
                   m_pAABBTree := if uc then some (pModel.treeOf i default default) else none } } :
          IFramePtr Mesh Tree),
       { m_Frames := StdMap.assign s.m_Frames i
           { addr := s.nextAddr,
             obj := { m_pMesh := some (pModel.meshOf i default),
                      m_pAABBTree := if uc then some (pModel.treeOf i default default) else none } },
         nextAddr := s.nextAddr + 1,
         trace := s.trace ++ [Event.callGetFrame i uc, Event.newFrame s.nextAddr uc,
                              Event.getMesh i s.nextAddr] }) := by
  cases uc <;> simp [GetFrame, h, IFrame.ctor, TQRModel.GetMesh]

theorem find_GetFrame_of_ne (s : TMainForm Mesh Tree) (i j : Nat)
    (pModel : TQRModel Mesh Tree) (uc : Bool) (hj : j ≠ i) :
    StdMap.find (GetFrame s i pModel uc).2.m_Frames j = StdMap.find s.m_Frames j := by
  cases h : StdMap.find s.m_Frames i with
  | some p => rw [GetFrame_of_find_some s i pModel uc p h]
  | none =>
    rw [GetFrame_of_find_none s i pModel uc h]
    exact StdMap.find_assign_ne _ _ _ _ hj

theorem find_GetFrame_of_find_some (s : TMainForm Mesh Tree) (i j : Nat)
    (pModel : TQRModel Mesh Tree) (uc : Bool) (p : IFramePtr Mesh Tree)
    (h : StdMap.find s.m_Frames j = some p) :
    StdMap.find (GetFrame s i pModel uc).2.m_Frames j = some p := by
  by_cases hj : j = i
  · subst hj
    rw [GetFrame_of_find_some s j pModel uc p h]; exact h
  · rw [find_GetFrame_of_ne s i j pModel uc hj]; exact h

/-- C1. A look-up that hits returns exactly the stored entry, allocates nothing, does not invoke
the provider's `GetMesh` and leaves `m_Frames` as it was; and from any state, a second
`GetFrame(i)` (with any model and flag) returns the entry the first one returned, the two calls
together invoking `GetMesh` for `i` at most once. -/
theorem GetFrame_hit_is_stored_entry (s : TMainForm Mesh Tree) (i : Nat)
    (pModel pModel2 : TQRModel Mesh Tree) (uc uc2 : Bool) :
    (∀ p, StdMap.find s.m_Frames i = some p →
      (GetFrame s i pModel uc).1 = p ∧
      (GetFrame s i pModel uc).2.m_Frames = s.m_Frames ∧
      (GetFrame s i pModel uc).2.nextAddr = s.nextAddr ∧
      (GetFrame s i pModel uc).2.trace = s.trace ++ [Event.callGetFrame i uc] ∧
      (GetFrame s i pModel uc).2.getMeshCalls = s.getMeshCalls) ∧
    (GetFrame (GetFrame s i pModel uc).2 i pModel2 uc2).1 = (GetFrame s i pModel uc).1 ∧
    (GetFrame (GetFrame s i pModel uc).2 i pModel2 uc2).2.m_Frames =
      (GetFrame s i pModel uc).2.m_Frames ∧
    (GetFrame (GetFrame s i pModel uc).2 i pModel2 uc2).2.getMeshCalls.count i ≤
      s.getMeshCalls.count i + 1 := by
  have hit : ∀ (t : TMainForm Mesh Tree) (m : TQRModel Mesh Tree) (c : Bool) p,
      StdMap.find t.m_Frames i = some p →
      (GetFrame t i m c).1 = p ∧ (GetFrame t i m c).2.m_Frames = t.m_Frames ∧
      (GetFrame t i m c).2.nextAddr = t.nextAddr ∧
      (GetFrame t i m c).2.trace = t.trace ++ [Event.callGetFrame i c] ∧
      (GetFrame t i m c).2.getMeshCalls = t.getMeshCalls := by
    intro t m c p h
    rw [GetFrame_of_find_some t i m c p h]
    refine ⟨rfl, rfl, rfl, rfl, ?_⟩
    rw [getMeshCalls_of_trace t _ [Event.callGetFrame i c] rfl]; simp
  refine ⟨fun p h => hit s pModel uc p h, ?_⟩
  cases h : StdMap.find s.m_Frames i with
  | some p =>
    obtain ⟨h1, h2, -, -, h5⟩ := hit s pModel uc p h
    have h' : StdMap.find (GetFrame s i pModel uc).2.m_Frames i = some p := by rw [h2]; exact h
    obtain ⟨g1, g2, -, -, g5⟩ := hit (GetFrame s i pModel uc).2 pModel2 uc2 p h'
    refine ⟨by rw [g1, h1], g2, ?_⟩
    rw [g5, h5]; exact Nat.le_succ _
  | none =>
    have e := GetFrame_of_find_none s i pModel uc h
    have h' : StdMap.find (GetFrame s i pModel uc).2.m_Frames i = some (GetFrame s i pModel uc).1 := by
      rw [e]; exact StdMap.find_assign_self _ _ _
    obtain ⟨g1, g2, -, -, g5⟩ := hit (GetFrame s i pModel uc).2 pModel2 uc2 _ h'
    refine ⟨g1, g2, ?_⟩
    rw [g5, getMeshCalls_of_trace s (GetFrame s i pModel uc).2
      [Event.callGetFrame i uc, Event.newFrame s.nextAddr uc, Event.getMesh i s.nextAddr]
      (by rw [e])]
    simp

/-- C1, at the form that holds frame `0`: the hit returns the stored frame at address `0`. -/
theorem GetFrame_hit_is_stored_entry_witness :
    StdMap.find Example.formWithFrame0.m_Frames 0 =
        some { addr := 0, obj := { m_pMesh := some [0], m_pAABBTree := some [0] } } ∧
      (GetFrame Example.formWithFrame0 0 Example.smallModel false).1 =
        { addr := 0, obj := { m_pMesh := some [0], m_pAABBTree := some [0] } } ∧
      (GetFrame Example.formWithFrame0 0 Example.smallModel false).2.getMeshCalls = [0] :=
  ⟨by decide,
   ((GetFrame_hit_is_stored_entry Example.formWithFrame0 0 Example.smallModel Example.model
      false true).1 _ (by decide)).1,
   by decide⟩

/-- C2. A look-up that misses, whatever the index (no comparison with the mesh count is made),
allocates one frame at the next address, invokes `GetMesh` exactly once, with that index, on the
fresh mesh and the tree pointer of that frame, stores the frame under the index and returns the
stored frame. -/
theorem GetFrame_miss_builds_and_stores (s : TMainForm Mesh Tree) (i : Nat)
    (pModel : TQRModel Mesh Tree) (uc : Bool) (h : StdMap.find s.m_Frames i = none) :
    (GetFrame s i pModel uc).1.addr = s.nextAddr ∧
    (GetFrame s i pModel uc).1.obj.m_pMesh =
      some (pModel.GetMesh i default (IFrame.ctor uc : IFrame Mesh Tree).m_pAABBTree).1 ∧
    (GetFrame s i pModel uc).1.obj.m_pAABBTree =
      (pModel.GetMesh i default (IFrame.ctor uc : IFrame Mesh Tree).m_pAABBTree).2 ∧
    (GetFrame s i pModel uc).2.trace =
      s.trace ++ [Event.callGetFrame i uc, Event.newFrame s.nextAddr uc,
                  Event.getMesh i s.nextAddr] ∧
    (GetFrame s i pModel uc).2.getMeshCalls = s.getMeshCalls ++ [i] ∧
    (GetFrame s i pModel uc).2.nextAddr = s.nextAddr + 1 ∧
    StdMap.find (GetFrame s i pModel uc).2.m_Frames i = some (GetFrame s i pModel uc).1 := by
  have e := GetFrame_of_find_none s i pModel uc h
  have ht : (GetFrame s i pModel uc).2.trace =
      s.trace ++ [Event.callGetFrame i uc, Event.newFrame s.nextAddr uc,
                  Event.getMesh i s.nextAddr] := by rw [e]
  refine ⟨by rw [e], ?_, ?_, ht, ?_, by rw [e], ?_⟩
  · rw [e]; cases uc <;> simp [TQRModel.GetMesh, IFrame.ctor]
  · rw [e]; cases uc <;> simp [TQRModel.GetMesh, IFrame.ctor]
  · rw [getMeshCalls_of_trace s _ _ ht]; simp
  · rw [e]; exact StdMap.find_assign_self _ _ _

/-- C2, on the empty cache with index `7` and a model of two meshes: frame `7` is built. -/
theorem GetFrame_miss_builds_and_stores_witness :
    StdMap.find (init : TMainForm (List Nat) (List Nat)).m_Frames 7 = none ∧
      (GetFrame (init : TMainForm (List Nat) (List Nat)) 7 Example.model false).2.getMeshCalls
        = [] ++ [7] ∧
      StdMap.find (GetFrame (init : TMainForm (List Nat) (List Nat)) 7 Example.model false).2.m_Frames 7
        = some { addr := 0, obj := { m_pMesh := some [7], m_pAABBTree := none } } :=
  ⟨by decide,
   (GetFrame_miss_builds_and_stores init 7 Example.model false (by decide)).2.2.2.2.1,
   by decide⟩

/-- C3. `GetFrame(i, ...)` leaves every other key as it was: `j ≠ i` is present afterwards
exactly when it was present before, with the same stored frame. -/
theorem GetFrame_other_keys_untouched (s : TMainForm Mesh Tree) (i j : Nat)
    (pModel : TQRModel Mesh Tree) (uc : Bool) (hj : j ≠ i) :
    StdMap.find (GetFrame s i pModel uc).2.m_Frames j = StdMap.find s.m_Frames j :=
  find_GetFrame_of_ne s i j pModel uc hj

/-- C3, on the form that holds frame `0`: building frame `1` leaves frame `0` in place. -/
theorem GetFrame_other_keys_untouched_witness :
    (0 : Nat) ≠ 1 ∧
      StdMap.find (GetFrame Example.formWithFrame0 1 Example.model false).2.m_Frames 0 =
        StdMap.find Example.formWithFrame0.m_Frames 0 :=
  ⟨by decide, GetFrame_other_keys_untouched Example.formWithFrame0 1 0 Example.model false (by decide)⟩

/-! ### Operations built from `GetFrame` -/

/-- A property of the state that every `GetFrame` keeps is kept by every look-up operation. -/
theorem step_lookup_preserves (P : TMainForm Mesh Tree → Prop)
    (hG : ∀ s i pModel uc, P s → P (GetFrame s i pModel uc).2)
    (s : TMainForm Mesh Tree) (op : Op Mesh Tree) (hop : op.isLookup = true) (hs : P s) :
    P (step s op) := by
  cases op with
  | getFrame i pModel uc => exact hG s i pModel uc hs
  | drawModel w Interpolate pModel index nextIndex factor useShader collisions =>
    simp only [step, MD3.DrawModel]
    cases pModel with
    | none => exact hs
    | some model =>
      simp only
      split
      · exact hs
      · exact hG _ _ _ _ (hG _ _ _ _ hs)
  | onDrawCustomModelItem w Interpolate m_pOptions pModel index nextIndex factor =>
    simp only [step, MD2.OnDrawCustomModelItem]
    cases pModel with
    | none => exact hs
    | some model =>
      simp only
      split
      · exact hs
      · split
        · exact hG _ _ _ _ hs
        · split
          · exact hG _ _ _ _ hs
          · exact hG _ _ _ _ (hG _ _ _ _ hs)
  | loadModel => simp [Op.isLookup] at hop

/-- A property that `GetFrame` and the clearing step keep is kept by every operation. -/
theorem step_preserves (P : TMainForm Mesh Tree → Prop)
    (hG : ∀ s i pModel uc, P s → P (GetFrame s i pModel uc).2)
    (hC : ∀ s, P s → P (ClearFrames s))
    (s : TMainForm Mesh Tree) (op : Op Mesh Tree) (hs : P s) : P (step s op) := by
  cases hop : op.isLookup with
  | true => exact step_lookup_preserves P hG s op hop hs
  | false =>
    cases op with
    | loadModel => exact hC s hs
    | getFrame i pModel uc => simp [Op.isLookup] at hop
    | drawModel w Interpolate pModel index nextIndex factor useShader collisions =>
      simp [Op.isLookup] at hop
    | onDrawCustomModelItem w Interpolate m_pOptions pModel index nextIndex factor =>
      simp [Op.isLookup] at hop

theorem run_preserves (P : TMainForm Mesh Tree → Prop)
    (hG : ∀ s i pModel uc, P s → P (GetFrame s i pModel uc).2)
    (hC : ∀ s, P s → P (ClearFrames s))
    (ops : List (Op Mesh Tree)) : ∀ s : TMainForm Mesh Tree, P s → P (run s ops) := by
  induction ops with
  | nil => intro s hs; exact hs
  | cons op ops ih =>
    intro s hs
    exact ih (step s op) (step_preserves P hG hC s op hs)

theorem run_lookup_preserves (P : TMainForm Mesh Tree → Prop)
    (hG : ∀ s i pModel uc, P s → P (GetFrame s i pModel uc).2)
    (ops : List (Op Mesh Tree)) :
    ∀ s : TMainForm Mesh Tree, (∀ op ∈ ops, op.isLookup = true) → P s → P (run s ops) := by
  induction ops with
  | nil => intro s _ hs; exact hs
  | cons op ops ih =>
    intro s hops hs
    exact ih (step s op) (fun o ho => hops o (List.mem_cons_of_mem _ ho))
      (step_lookup_preserves P hG s op (hops op (List.mem_cons_self _ _)) hs)

/-! ### The invariant -/

theorem infix_append_right {α : Type} (l t x : List α) (h : l <:+: t) : l <:+: t ++ x := by
  obtain ⟨a, b, rfl⟩ := h
  exact ⟨a, b ++ x, by simp⟩

theorem GetFrame_miss_state (s : TMainForm Mesh Tree) (i : Nat) (pModel : TQRModel Mesh Tree)
    (uc : Bool) (h : StdMap.find s.m_Frames i = none) :
    (GetFrame s i pModel uc).2 =
      { m_Frames := StdMap.insertSorted i (GetFrame s i pModel uc).1 s.m_Frames,
        nextAddr := s.nextAddr + 1,
        trace := s.trace ++ [Event.callGetFrame i uc, Event.newFrame s.nextAddr uc,
                             Event.getMesh i s.nextAddr] } ∧
    (GetFrame s i pModel uc).1.addr = s.nextAddr ∧
    (GetFrame s i pModel uc).1.obj.m_pMesh.isSome = true ∧
    (GetFrame s i pModel uc).1.obj.m_pAABBTree.isSome = uc := by
  rw [GetFrame_of_find_none s i pModel uc h, StdMap.assign_of_find_none _ _ _ h]
  refine ⟨rfl, rfl, rfl, ?_⟩
  cases uc <;> rfl

theorem Inv_GetFrame (s : TMainForm Mesh Tree) (i : Nat) (pModel : TQRModel Mesh Tree)
    (uc : Bool) (hs : Inv s) : Inv (GetFrame s i pModel uc).2 := by
  cases h : StdMap.find s.m_Frames i with
  | some p =>
    rw [GetFrame_of_find_some s i pModel uc p h]
    constructor
    · exact hs.addr_lt
    · exact hs.addr_nodup
    · intro a c ha
      simp only [List.mem_append, List.mem_singleton] at ha
      rcases ha with ha | ha
      · exact hs.new_lt a c ha
      · cases ha
    · intro a ha
      simp only [List.mem_append, List.mem_singleton] at ha
      rcases ha with ha | ha
      · exact hs.del_lt a ha
      · cases ha
    · intro e he ha
      simp only [List.mem_append, List.mem_singleton] at ha
      rcases ha with ha | ha
      · exact hs.not_deleted e he ha
      · cases ha
    · intro a c c2 h1 h2
      simp only [List.mem_append, List.mem_singleton] at h1 h2
      rcases h1 with h1 | h1
      · rcases h2 with h2 | h2
        · exact hs.new_unique a c c2 h1 h2
        · cases h2
      · cases h1
    · intro e he
      exact ⟨(hs.built e he).1, infix_append_right _ _ _ (hs.built e he).2⟩
  | none =>
    obtain ⟨hst, haddr, hmesh, htree⟩ := GetFrame_miss_state s i pModel uc h
    rw [hst]
    generalize (GetFrame s i pModel uc).1 = p at haddr hmesh htree
    have hperm := StdMap.insertSorted_perm i p s.m_Frames
    have hmem : ∀ e, e ∈ StdMap.insertSorted i p s.m_Frames → e = (i, p) ∨ e ∈ s.m_Frames := by
      intro e he
      simpa using hperm.mem_iff.mp he
    constructor
    · intro e he
      rcases hmem e he with rfl | he
      · simp [haddr]
      · exact Nat.lt_succ_of_lt (hs.addr_lt e he)
    · refine (List.Perm.nodup_iff (hperm.map _)).mpr ?_
      simp only [List.map_cons, List.nodup_cons, List.mem_map, not_exists, not_and]
      refine ⟨fun e he heq => ?_, hs.addr_nodup⟩
      rw [haddr] at heq
      exact absurd heq (Nat.ne_of_lt (hs.addr_lt e he))
    · intro a c ha
      simp only [List.mem_append, List.mem_cons, List.mem_singleton, List.not_mem_nil,
        or_false] at ha
      rcases ha with ha | ha | ha | ha
      · exact Nat.lt_succ_of_lt (hs.new_lt a c ha)
      · cases ha
      · cases ha; exact Nat.lt_succ_self _
      · cases ha
    · intro a ha
      simp only [List.mem_append, List.mem_cons, List.mem_singleton, List.not_mem_nil,
        or_false] at ha
      rcases ha with ha | ha | ha | ha
      · exact Nat.lt_succ_of_lt (hs.del_lt a ha)
      · cases ha
      · cases ha
      · cases ha
    · intro e he ha
      simp only [List.mem_append, List.mem_cons, List.mem_singleton, List.not_mem_nil,
        or_false] at ha
      rcases ha with ha | ha | ha | ha
      · rcases hmem e he with rfl | he
        · simp only [haddr] at ha
          exact absurd (hs.del_lt _ ha) (Nat.lt_irrefl _)
        · exact hs.not_deleted e he ha
      · cases ha
      · cases ha
      · cases ha
    · intro a c c2 h1 h2
      simp only [List.mem_append, List.mem_cons, List.mem_singleton, List.not_mem_nil,
        or_false] at h1 h2
      rcases h1 with h1 | h1 | h1 | h1
      · rcases h2 with h2 | h2 | h2 | h2
        · exact hs.new_unique a c c2 h1 h2
        · cases h2
        · cases h2; exact absurd (hs.new_lt _ _ h1) (Nat.lt_irrefl _)
        · cases h2
      · cases h1
      · rcases h2 with h2 | h2 | h2 | h2
        · cases h1; exact absurd (hs.new_lt _ _ h2) (Nat.lt_irrefl _)
        · cases h2
        · cases h1; cases h2; rfl
        · cases h2
      · cases h1
    · intro e he
      rcases hmem e he with rfl | he
      · refine ⟨hmesh, ?_⟩
        simp only [haddr, htree]
        exact List.suffix_append _ _ |>.isInfix
      · exact ⟨(hs.built e he).1, infix_append_right _ _ _ (hs.built e he).2⟩

theorem Inv_run (ops : List (Op Mesh Tree)) : Inv (run (init : TMainForm Mesh Tree) ops) :=
  run_preserves Inv Inv_GetFrame Inv_ClearFrames ops init Inv_init

/-- C4. In every state the forms can reach, a cached frame has a mesh; the trace holds the
`GetFrame` call that built it, the only one that allocated its address, and the frame has a tree
exactly when the flag of that call was set; a later `GetFrame` for the same index returns the
stored frame as it is, whatever flag it is given. -/
theorem cached_frame_has_mesh_and_tree_iff_flag (ops : List (Op Mesh Tree)) (i : Nat)
    (p : IFramePtr Mesh Tree) (h : StdMap.find (run init ops).m_Frames i = some p) :
    p.obj.m_pMesh.isSome = true ∧
    (∃ uc, [Event.callGetFrame i uc, Event.newFrame p.addr uc, Event.getMesh i p.addr]
        <:+: (run init ops).trace ∧
      (∀ uc2, Event.newFrame p.addr uc2 ∈ (run init ops).trace → uc2 = uc) ∧
      (p.obj.m_pAABBTree.isSome = true ↔ uc = true)) ∧
    (∀ pModel uc2, (GetFrame (run init ops) i pModel uc2).1 = p ∧
      (GetFrame (run init ops) i pModel uc2).2.m_Frames = (run init ops).m_Frames) := by
  have hinv : Inv (run (init : TMainForm Mesh Tree) ops) := Inv_run ops
  have hmem := StdMap.mem_of_find_some _ _ _ h
  obtain ⟨hmesh, hinfix⟩ := hinv.built _ hmem
  refine ⟨hmesh, ⟨p.obj.m_pAABBTree.isSome, hinfix, ?_, Iff.rfl⟩, ?_⟩
  · intro uc2 h2
    refine hinv.new_unique p.addr uc2 _ h2 ?_
    obtain ⟨a, b, hab⟩ := hinfix
    rw [← hab]
    simp
  · intro pModel uc2
    rw [GetFrame_of_find_some _ i pModel uc2 p h]
    exact ⟨rfl, rfl⟩

/-- C4, after `GetFrame(0, false)` then `GetFrame(0, true)`: the frame stored for `0` has a mesh
and no tree. -/
theorem cached_frame_has_mesh_and_tree_iff_flag_witness :
    StdMap.find (run (init : TMainForm (List Nat) (List Nat))
        [Op.getFrame 0 Example.model false, Op.getFrame 0 Example.model true]).m_Frames 0 =
      some { addr := 0, obj := { m_pMesh := some [0], m_pAABBTree := none } } ∧
    (some [0] : Option (List Nat)).isSome = true :=
  ⟨by decide,
   (cached_frame_has_mesh_and_tree_iff_flag
      [Op.getFrame 0 Example.model false, Op.getFrame 0 Example.model true] 0
      { addr := 0, obj := { m_pMesh := some [0], m_pAABBTree := none } } (by decide)).1⟩

/-- The clearing step of `LoadModel` removes what the cache holds: on a form that holds frame
`0`, the entry is gone after it.  In the demos `LoadModel` runs once, from `FormCreate`, on the
empty cache. -/
theorem entry_evicted_by_LoadModel :
    StdMap.find Example.formWithFrame0.m_Frames 0 =
        some { addr := 0, obj := { m_pMesh := some [0], m_pAABBTree := some [0] } } ∧
      StdMap.find (run Example.formWithFrame0 [Op.loadModel]).m_Frames 0 = none := by
  decide

/-- No look-up operation evicts: along every sequence of `GetFrame`, `DrawModel` and
`OnDrawCustomModelItem` calls, from any state, an index that has an entry keeps that same
entry. -/
theorem entry_kept_by_lookups (s : TMainForm Mesh Tree) (ops : List (Op Mesh Tree))
    (hops : ∀ op ∈ ops, op.isLookup = true) (i : Nat) (p : IFramePtr Mesh Tree)
    (h : StdMap.find s.m_Frames i = some p) :
    StdMap.find (run s ops).m_Frames i = some p :=
  run_lookup_preserves (fun t => StdMap.find t.m_Frames i = some p)
    (fun t j pModel uc ht => find_GetFrame_of_find_some t j i pModel uc p ht) ops s hops h

/-- On the form that holds frame `0`, the entry is the same after a `GetFrame(1)` and an MD3
`DrawModel`. -/
theorem entry_kept_by_lookups_witness :
    StdMap.find Example.formWithFrame0.m_Frames 0 =
        some { addr := 0, obj := { m_pMesh := some [0], m_pAABBTree := some [0] } } ∧
      StdMap.find (run Example.formWithFrame0
          [Op.getFrame 1 Example.model false,
           Op.drawModel 32 (fun _ a _ => a) (some Example.model) 0 1 0 true true]).m_Frames 0 =
        some { addr := 0, obj := { m_pMesh := some [0], m_pAABBTree := some [0] } } :=
  ⟨by decide,
   entry_kept_by_lookups Example.formWithFrame0 _
     (by intro op hop; simp at hop; rcases hop with rfl | rfl <;> rfl) 0 _ (by decide)⟩

/-- C5. During the life of the demo (the constructor, then `FormCreate` with its one call of
`LoadModel`, then any sequence `handlers` of `GetFrame`, `DrawModel` and `OnDrawCustomModelItem`
calls) no entry of the frame cache is evicted: an index that has an entry after the first `n`
calls has that same entry after the first `m` calls, for every `m ≥ n`. -/
theorem entry_never_evicted (handlers : List (Op Mesh Tree))
    (hops : ∀ op ∈ handlers, op.isLookup = true) (n m : Nat) (hnm : n ≤ m) (i : Nat)
    (p : IFramePtr Mesh Tree)
    (h : StdMap.find (lifetime (handlers.take n)).m_Frames i = some p) :
    StdMap.find (lifetime (handlers.take m)).m_Frames i = some p := by
  have hsplit : handlers.take m = handlers.take n ++ (handlers.take m).drop n := by
    conv_lhs => rw [← List.take_append_drop n (handlers.take m)]
    rw [List.take_take, min_eq_left hnm]
  unfold lifetime at h ⊢
  rw [hsplit, run, List.foldl_append]
  refine run_lookup_preserves (fun t => StdMap.find t.m_Frames i = some p)
    (fun t j pModel uc ht => find_GetFrame_of_find_some t j i pModel uc p ht) _ _ ?_ h
  intro op hop
  exact hops op (List.mem_of_mem_take (List.mem_of_mem_drop hop))

/-- C5, on the life `GetFrame(0)`, `GetFrame(1)`, MD3 `DrawModel(0, 1)`: the entry that index
`0` has after the first call is the entry it has after all three. -/
theorem entry_never_evicted_witness :
    StdMap.find (lifetime
        ([Op.getFrame 0 Example.model true, Op.getFrame 1 Example.model false,
          Op.drawModel 32 (fun _ a _ => a) (some Example.model) 0 1 0 true true].take
            1)).m_Frames 0 =
        some { addr := 0, obj := { m_pMesh := some [0], m_pAABBTree := some [0] } } ∧
      StdMap.find (lifetime
        ([Op.getFrame 0 Example.model true, Op.getFrame 1 Example.model false,
          Op.drawModel 32 (fun _ a _ => a) (some Example.model) 0 1 0 true true].take
            3)).m_Frames 0 =
        some { addr := 0, obj := { m_pMesh := some [0], m_pAABBTree := some [0] } } :=
  ⟨by decide,
   entry_never_evicted _
     (by intro op hop; simp at hop; rcases hop with rfl | rfl | rfl <;> rfl) 1 3 (by decide) 0 _
     (by decide)⟩

/-- C6 fails on the code: with a model of one mesh, the MD3 `DrawModel` and the MD2
`OnDrawCustomModelItem` pass index `1` (equal to the mesh count) to `GetFrame`, and `DrawModel`
passes index `-1` on as `2 ^ 32 - 1`; each time the provider is asked for that mesh. -/
theorem draw_handlers_pass_out_of_range_index :
    Example.smallModel.GetMeshCount = 1 ∧
    (MD3.DrawModel 32 (fun _ a _ => a) (init : TMainForm (List Nat) (List Nat))
        (some Example.smallModel) 1 0 0 true true).2.getMeshCalls = [1, 0] ∧
    (MD2.OnDrawCustomModelItem 32 (fun _ a _ => a) Example.options
        (init : TMainForm (List Nat) (List Nat))
        (some Example.smallModel) 1 0 0).2.getMeshCalls = [1] ∧
    (MD3.DrawModel 32 (fun _ a _ => a) (init : TMainForm (List Nat) (List Nat))
        (some Example.smallModel) (-1) 0 0 true true).2.getMeshCalls = [4294967295, 0] := by
  refine ⟨rfl, ?_, ?_, ?_⟩ <;> decide

/-- C7. In every state the forms can reach, the clearing step of `LoadModel` and of the
destructor leaves `m_Frames` empty and appends to the trace one `delete` per stored frame and
nothing else; every stored frame is thereby deleted exactly once over the whole run; and
afterwards `GetFrame` misses on every index, asking the provider for the mesh again. -/
theorem ClearFrames_deletes_every_frame_once (ops : List (Op Mesh Tree)) :
    (ClearFrames (run init ops)).m_Frames = [] ∧
    (ClearFrames (run init ops)).trace =
      (run init ops).trace ++
        (run init ops).m_Frames.map (fun e => Event.deleteFrame e.2.addr) ∧
    (∀ e ∈ (run init ops).m_Frames,
      (ClearFrames (run init ops)).trace.count (Event.deleteFrame e.2.addr) = 1) ∧
    (∀ i pModel uc,
      StdMap.find (ClearFrames (run init ops)).m_Frames i = none ∧
      (GetFrame (ClearFrames (run init ops)) i pModel uc).2.getMeshCalls =
        (ClearFrames (run init ops)).getMeshCalls ++ [i]) := by
  have hinv : Inv (run (init : TMainForm Mesh Tree) ops) := Inv_run ops
  refine ⟨rfl, rfl, ?_, ?_⟩
  · intro e he
    have h0 : (run init ops).trace.count (Event.deleteFrame e.2.addr) = 0 :=
      List.count_eq_zero_of_not_mem (hinv.not_deleted e he)
    have hinj : Function.Injective Event.deleteFrame := by
      intro a b hab; cases hab; rfl
    have h1 : ((run init ops).m_Frames.map (fun e => Event.deleteFrame e.2.addr)).count
        (Event.deleteFrame e.2.addr) = 1 := by
      have hmap : (run init ops).m_Frames.map (fun e => Event.deleteFrame e.2.addr) =
          ((run init ops).m_Frames.map (fun e => e.2.addr)).map Event.deleteFrame := by
        simp [List.map_map]
      rw [hmap, List.count_map_of_injective _ _ hinj]
      exact List.count_eq_one_of_mem hinv.addr_nodup (List.mem_map_of_mem _ he)
    show List.count _ ((run init ops).trace ++ _) = 1
    rw [List.count_append, h0, h1]
  · intro i pModel uc
    have hnone : StdMap.find (ClearFrames (run init ops)).m_Frames i = none := rfl
    refine ⟨hnone, ?_⟩
    rw [getMeshCalls_of_trace (ClearFrames (run init ops)) _ _
      (by rw [GetFrame_of_find_none _ i pModel uc hnone])]
    simp

/-- C7, on the form that holds frames `0` and `1`: the clearing step deletes the frames at
addresses `0` and `1`, once each, and empties the cache. -/
theorem ClearFrames_deletes_every_frame_once_witness :
    (ClearFrames Example.formWithFrames01).deleted = [0, 1] ∧
      (ClearFrames Example.formWithFrames01).m_Frames = [] :=
  ⟨by decide,
   (ClearFrames_deletes_every_frame_once
      [Op.getFrame 0 Example.model true, Op.getFrame 1 Example.model false]).1⟩

end TMainForm

/-! ## `QR_Cache` -/

namespace QR_Cache

variable {T U : Type} [LinearOrder T]

theorem addItem_fst (c : QR_Cache T U) (k : T) (v : U) : (addItem c k v).1 = true := rfl

theorem find_addItem_self (c : QR_Cache T U) (k : T) (v : U) :
    StdMap.find (addItem c k v).2.m_Cache k = some v := by
  unfold addItem
  cases c.m_fOnAdd <;> exact StdMap.find_assign_self _ _ _

theorem Get_of_find_some (c : QR_Cache T U) (k : T) (out v : U)
    (h : StdMap.find c.m_Cache k = some v) : Get c k out = (true, v, c) := by
  simp [Get, h]

theorem Get_of_find_none (c : QR_Cache T U) (k : T) (out : U)
    (h : StdMap.find c.m_Cache k = none) : Get c k out = (false, out, c) := by
  simp [Get, h]

theorem Add_refused (c : QR_Cache T U) (k : T) (v old : U) (f : ITfOnDelete T U)
    (hfind : StdMap.find c.m_Cache k = some old) (hd : c.m_fOnDelete = some f)
    (hf : (f k old).1 = false) :
    Add c k v =
      (false, { c with
        m_Cache := c.m_Cache.map (fun e => if e.1 = k then (e.1, (f k old).2) else e),
        calls := c.calls ++ [HandlerCall.onDelete k old] }) := by
  simp [Add, hfind, hd, callOnDelete, hf]

theorem Add_fst_false_iff (c : QR_Cache T U) (k : T) (v : U) :
    (Add c k v).1 = false ↔
      ∃ old f, StdMap.find c.m_Cache k = some old ∧ c.m_fOnDelete = some f ∧
        (f k old).1 = false := by
  constructor
  · intro h
    cases hfind : StdMap.find c.m_Cache k with
    | none => simp [Add, hfind, addItem_fst] at h
    | some old =>
      cases hd : c.m_fOnDelete with
      | none => simp [Add, hfind, hd, addItem_fst] at h
      | some f =>
        cases hf : (f k old).1 with
        | false => exact ⟨old, f, rfl, rfl, hf⟩
        | true => simp [Add, hfind, hd, callOnDelete, hf, addItem_fst] at h
  · rintro ⟨old, f, hfind, hd, hf⟩
    rw [Add_refused c k v old f hfind hd hf]

/-- C8. When `Add(k, v)` returns `true`, the `Get(k, out)` that follows returns `true` and sets
`out` to `v`, whether `k` had an entry or not. -/
theorem Get_after_successful_Add (c : QR_Cache T U) (k : T) (v out : U)
    (h : (Add c k v).1 = true) :
    (Get (Add c k v).2 k out).1 = true ∧ (Get (Add c k v).2 k out).2.1 = v := by
  have hfind : StdMap.find (Add c k v).2.m_Cache k = some v := by
    cases hf : StdMap.find c.m_Cache k with
    | none => simp only [Add, hf]; exact find_addItem_self _ _ _
    | some old =>
      cases hd : c.m_fOnDelete with
      | none => simp only [Add, hf, hd]; exact find_addItem_self _ _ _
      | some f =>
        cases hr : (f k old).1 with
        | false =>
          have hfalse := (Add_fst_false_iff c k v).mpr ⟨old, f, hf, hd, hr⟩
          rw [hfalse] at h
          cases h
        | true =>
          simp only [Add, hf, hd, callOnDelete, hr, Bool.not_true, Bool.false_eq_true, if_false]
          exact find_addItem_self _ _ _
  rw [Get_of_find_some _ k out v hfind]
  exact ⟨rfl, rfl⟩

/-- C8, on the cache `1 ↦ 10, 3 ↦ 30`: after `Add(1, 11)`, `Get(1)` yields `11`. -/
theorem Get_after_successful_Add_witness :
    (Add Example.plain 1 11).1 = true ∧
      (Get (Add Example.plain 1 11).2 1 0).1 = true ∧
      (Get (Add Example.plain 1 11).2 1 0).2.1 = 11 :=
  ⟨by decide, Get_after_successful_Add Example.plain 1 11 0 (by decide)⟩

/-- C9. `Get(k, out)` returns `true` exactly when `k` has an entry; then `out` holds the stored
value, otherwise `out` is what it was; the cache (dictionary, handlers and the record of handler
invocations) is the same after the call. -/
theorem Get_reads_without_effect (c : QR_Cache T U) (k : T) (out : U) :
    ((Get c k out).1 = true ↔ k ∈ StdMap.keys c.m_Cache) ∧
    ((Get c k out).1 = true → StdMap.find c.m_Cache k = some (Get c k out).2.1) ∧
    ((Get c k out).1 = false → (Get c k out).2.1 = out) ∧
    (Get c k out).2.2 = c := by
  cases h : StdMap.find c.m_Cache k with
  | none =>
    have hk : ¬ k ∈ StdMap.keys c.m_Cache := by
      rw [← StdMap.find_isSome_iff_mem_keys, h]; simp
    rw [Get_of_find_none c k out h]
    simp [hk]
  | some v =>
    have hk : k ∈ StdMap.keys c.m_Cache := by
      rw [← StdMap.find_isSome_iff_mem_keys, h]; rfl
    rw [Get_of_find_some c k out v h]
    simp [hk]

/-- C9, on the cache `1 ↦ 10, 3 ↦ 30`: `Get(3)` finds `30`, `Get(2)` finds nothing and leaves
`out`. -/
theorem Get_reads_without_effect_witness :
    (Get Example.plain 3 0).1 = true ∧ (Get Example.plain 3 0).2.1 = 30 ∧
      (Get Example.plain 2 7).1 = false ∧ (Get Example.plain 2 7).2.1 = 7 ∧
      (3 ∈ StdMap.keys Example.plain.m_Cache) :=
  ⟨by decide, by decide, by decide, by decide,
   (Get_reads_without_effect Example.plain 3 0).1.mp (by decide)⟩

/-- C10. `Add(k, v)` returns `false` exactly when `k` has an entry, an `OnDelete` handler is set
and the handler returns `false` for that entry.  Then the only handler invoked is `OnDelete`, on
the existing entry; the dictionary is written only where the handler wrote the existing value
(so `Add` stores nothing), `k` still has an entry and the keys are the same.  Without an
`OnDelete` handler `Add` returns `true`. -/
theorem Add_fails_iff_OnDelete_refuses (c : QR_Cache T U) (k : T) (v : U) :
    ((Add c k v).1 = false ↔
      ∃ old f, StdMap.find c.m_Cache k = some old ∧ c.m_fOnDelete = some f ∧
        (f k old).1 = false) ∧
    (∀ old f, StdMap.find c.m_Cache k = some old → c.m_fOnDelete = some f →
      (f k old).1 = false →
        (Add c k v).2.calls = c.calls ++ [HandlerCall.onDelete k old] ∧
        (Add c k v).2.m_Cache =
          c.m_Cache.map (fun e => if e.1 = k then (e.1, (f k old).2) else e) ∧
        StdMap.find (Add c k v).2.m_Cache k = some (f k old).2 ∧
        (∀ j, j ≠ k → StdMap.find (Add c k v).2.m_Cache j = StdMap.find c.m_Cache j) ∧
        StdMap.keys (Add c k v).2.m_Cache = StdMap.keys c.m_Cache) ∧
    (c.m_fOnDelete = none → (Add c k v).1 = true) := by
  refine ⟨Add_fst_false_iff c k v, ?_, ?_⟩
  · intro old f hfind hd hf
    rw [Add_refused c k v old f hfind hd hf]
    refine ⟨rfl, rfl, ?_, ?_, ?_⟩
    · show StdMap.find (c.m_Cache.map _) k = _
      rw [StdMap.find_overwrite, hfind]; simp
    · intro j hj
      show StdMap.find (c.m_Cache.map _) j = _
      rw [StdMap.find_overwrite]; simp [hj]
    · exact StdMap.keys_overwrite _ _ _
  · intro hd
    cases hb : (Add c k v).1 with
    | true => rfl
    | false =>
      obtain ⟨old, f, -, hf, -⟩ := (Add_fst_false_iff c k v).mp hb
      rw [hd] at hf
      cases hf

/-- C10, on the cache `1 ↦ 10` guarded by a refusing `OnDelete`: `Add(1, 99)` returns `false`,
only `OnDelete(1, 10)` was invoked, and `1 ↦ 10` is still there. -/
theorem Add_fails_iff_OnDelete_refuses_witness :
    (Add Example.guarded 1 99).1 = false ∧
      (Add Example.guarded 1 99).2.calls = [HandlerCall.onDelete 1 10] ∧
      (Add Example.guarded 1 99).2.m_Cache = [(1, 10)] :=
  ⟨(Add_fails_iff_OnDelete_refuses Example.guarded 1 99).1.mpr
      ⟨10, Example.refuse, by decide, rfl, rfl⟩,
   by decide, by decide⟩

end QR_Cache

/-! ### `Delete`, the destructor and the `OnAdd` handler -/

namespace QR_Cache

variable {T U : Type} [LinearOrder T]

theorem Delete_of_find_none (c : QR_Cache T U) (k : T) (h : StdMap.find c.m_Cache k = none) :
    Delete c k = c := by
  simp [Delete, h]

theorem Delete_refused (c : QR_Cache T U) (k : T) (old : U) (f : ITfOnDelete T U)
    (hfind : StdMap.find c.m_Cache k = some old) (hd : c.m_fOnDelete = some f)
    (hf : (f k old).1 = false) :
    Delete c k =
      { c with
        m_Cache := c.m_Cache.map (fun e => if e.1 = k then (e.1, (f k old).2) else e),
        calls := c.calls ++ [HandlerCall.onDelete k old] } := by
  simp [Delete, hfind, hd, callOnDelete, hf]

theorem Delete_allowed (c : QR_Cache T U) (k : T) (old : U) (f : ITfOnDelete T U)
    (hfind : StdMap.find c.m_Cache k = some old) (hd : c.m_fOnDelete = some f)
    (hf : (f k old).1 = true) :
    Delete c k =
      { c with
        m_Cache := StdMap.erase
          (c.m_Cache.map (fun e => if e.1 = k then (e.1, (f k old).2) else e)) k,
        calls := c.calls ++ [HandlerCall.onDelete k old] } := by
  simp [Delete, hfind, hd, callOnDelete, hf]

theorem Delete_no_handler (c : QR_Cache T U) (k : T) (old : U)
    (hfind : StdMap.find c.m_Cache k = some old) (hd : c.m_fOnDelete = none) :
    Delete c k = { c with m_Cache := StdMap.erase c.m_Cache k } := by
  simp [Delete, hfind, hd]

theorem find_after_refusal (m : List (T × U)) (k : T) (old v : U)
    (hfind : StdMap.find m k = some old) :
    StdMap.find (m.map (fun e => if e.1 = k then (e.1, v) else e)) k = some v := by
  rw [StdMap.find_overwrite, hfind]; simp

theorem find_Delete_ne (c : QR_Cache T U) (k j : T) (hj : j ≠ k) :
    StdMap.find (Delete c k).m_Cache j = StdMap.find c.m_Cache j := by
  cases hfind : StdMap.find c.m_Cache k with
  | none => rw [Delete_of_find_none c k hfind]
  | some old =>
    cases hd : c.m_fOnDelete with
    | none =>
      rw [Delete_no_handler c k old hfind hd]
      exact StdMap.find_erase_ne _ _ _ hj
    | some f =>
      cases hf : (f k old).1 with
      | false =>
        rw [Delete_refused c k old f hfind hd hf]
        show StdMap.find (c.m_Cache.map _) j = _
        rw [StdMap.find_overwrite]; simp [hj]
      | true =>
        rw [Delete_allowed c k old f hfind hd hf]
        show StdMap.find (StdMap.erase (c.m_Cache.map _) k) j = _
        rw [StdMap.find_erase_ne _ _ _ hj, StdMap.find_overwrite]; simp [hj]

theorem find_Delete_self (c : QR_Cache T U) (k : T) (old : U)
    (hfind : StdMap.find c.m_Cache k = some old) :
    (StdMap.find (Delete c k).m_Cache k = none ↔
      (c.m_fOnDelete = none ∨ ∃ f, c.m_fOnDelete = some f ∧ (f k old).1 = true)) := by
  cases hd : c.m_fOnDelete with
  | none =>
    rw [Delete_no_handler c k old hfind hd]
    exact ⟨fun _ => Or.inl rfl, fun _ => StdMap.find_erase_self _ _⟩
  | some f =>
    cases hf : (f k old).1 with
    | false =>
      rw [Delete_refused c k old f hfind hd hf]
      have h1 : StdMap.find (c.m_Cache.map (fun e => if e.1 = k then (e.1, (f k old).2) else e)) k
          = some (f k old).2 := find_after_refusal _ _ _ _ hfind
      constructor
      · intro h
        rw [h1] at h
        cases h
      · rintro (h | ⟨g, hg, hgt⟩)
        · cases h
        · cases hg
          rw [hf] at hgt
          cases hgt
    | true =>
      rw [Delete_allowed c k old f hfind hd hf]
      exact ⟨fun _ => Or.inr ⟨f, rfl, hf⟩, fun _ => StdMap.find_erase_self _ _⟩

/-- C11. When `k` has an entry, `Delete(k)` removes it (the `Get(k)` that follows returns
`false`) exactly when no `OnDelete` handler is set or the handler returns `true` for the entry;
when `k` has no entry the cache is left as it is, no handler being invoked; when the handler
returns `false` the entry stays, under the same keys; and no other key is touched. -/
theorem Delete_removes_iff_allowed (c : QR_Cache T U) (k : T) (out : U) :
    (∀ old, StdMap.find c.m_Cache k = some old →
      ((Get (Delete c k) k out).1 = false ↔
        (c.m_fOnDelete = none ∨ ∃ f, c.m_fOnDelete = some f ∧ (f k old).1 = true))) ∧
    (StdMap.find c.m_Cache k = none → Delete c k = c) ∧
    (∀ old f, StdMap.find c.m_Cache k = some old → c.m_fOnDelete = some f →
      (f k old).1 = false →
        StdMap.find (Delete c k).m_Cache k = some (f k old).2 ∧
        (Get (Delete c k) k out).1 = true ∧
        StdMap.keys (Delete c k).m_Cache = StdMap.keys c.m_Cache) ∧
    (∀ j, j ≠ k → StdMap.find (Delete c k).m_Cache j = StdMap.find c.m_Cache j) := by
  refine ⟨?_, Delete_of_find_none c k, ?_, fun j hj => find_Delete_ne c k j hj⟩
  · intro old hfind
    rw [← find_Delete_self c k old hfind]
    cases h : StdMap.find (Delete c k).m_Cache k with
    | none => rw [Get_of_find_none _ k out h]; simp
    | some v => rw [Get_of_find_some _ k out v h]; simp
  · intro old f hfind hd hf
    have h1 : StdMap.find (Delete c k).m_Cache k = some (f k old).2 := by
      rw [Delete_refused c k old f hfind hd hf]
      exact find_after_refusal _ _ _ _ hfind
    refine ⟨h1, ?_, ?_⟩
    · rw [Get_of_find_some _ k out _ h1]
    · rw [Delete_refused c k old f hfind hd hf]
      exact StdMap.keys_overwrite _ _ _

/-- C11, on three caches holding `1 ↦ 10`: without handler and with an allowing handler
`Delete(1)` removes the entry, with the refusing handler it stays. -/
theorem Delete_removes_iff_allowed_witness :
    (Get (Delete Example.plain 1) 1 0).1 = false ∧
      (Get (Delete Example.observed 1) 1 0).1 = false ∧
      (Get (Delete Example.guarded 1) 1 0).1 = true ∧
      (Delete Example.guarded 1).m_Cache = [(1, 10)] :=
  ⟨((Delete_removes_iff_allowed Example.plain 1 0).1 10 (by decide)).mpr (Or.inl rfl),
   by decide, by decide, by decide⟩

theorem notifyAll_no_handler (l : List (T × U)) (c : QR_Cache T U)
    (hd : c.m_fOnDelete = none) : notifyAll l c = c := by
  induction l with
  | nil => rfl
  | cons e rest ih => simp [notifyAll, hd, ih]

theorem notifyAll_calls (f : ITfOnDelete T U) (l : List (T × U)) :
    ∀ c : QR_Cache T U, c.m_fOnDelete = some f →
      (notifyAll l c).calls = c.calls ++ l.map (fun e => HandlerCall.onDelete e.1 e.2) := by
  induction l with
  | nil => intro c _; simp [notifyAll]
  | cons e rest ih =>
    intro c hd
    simp only [notifyAll, hd]
    rw [ih _ (by simp [callOnDelete, hd])]
    simp [callOnDelete]

/-- C12 as stated fails for the destructor: the cache holds `1 ↦ 10`, its `OnDelete` handler
returns `false` for that entry, and the destructor, having called the handler, empties the
dictionary all the same. -/
theorem dtor_ignores_OnDelete_verdict :
    StdMap.find Example.guarded.m_Cache 1 = some 10 ∧
      Example.guarded.m_fOnDelete = some Example.refuse ∧
      (Example.refuse 1 10).1 = false ∧
      (dtor Example.guarded).calls = [HandlerCall.onDelete 1 10] ∧
      (dtor Example.guarded).m_Cache = [] ∧
      StdMap.find (dtor Example.guarded).m_Cache 1 = none :=
  ⟨by decide, rfl, rfl, by decide, rfl, rfl⟩

/-- C12, amended. In `Add` (on an existing key) and in `Delete`, an entry for which the set
`OnDelete` handler returns `false` is not removed; the destructor calls a set handler once on
every entry, in key order, and removes every entry whatever the handler returns. -/
theorem OnDelete_verdict_honoured_by_Add_and_Delete (c : QR_Cache T U) (k : T) (v old : U)
    (f : ITfOnDelete T U) (hfind : StdMap.find c.m_Cache k = some old)
    (hd : c.m_fOnDelete = some f) (hf : (f k old).1 = false) :
    (StdMap.find (Add c k v).2.m_Cache k = some (f k old).2 ∧
      StdMap.keys (Add c k v).2.m_Cache = StdMap.keys c.m_Cache) ∧
    (StdMap.find (Delete c k).m_Cache k = some (f k old).2 ∧
      StdMap.keys (Delete c k).m_Cache = StdMap.keys c.m_Cache) ∧
    ((dtor c).m_Cache = [] ∧
      (dtor c).calls = c.calls ++ c.m_Cache.map (fun e => HandlerCall.onDelete e.1 e.2)) := by
  refine ⟨⟨?_, ?_⟩, ⟨?_, ?_⟩, rfl, ?_⟩
  · rw [Add_refused c k v old f hfind hd hf]
    exact find_after_refusal _ _ _ _ hfind
  · rw [Add_refused c k v old f hfind hd hf]
    exact StdMap.keys_overwrite _ _ _
  · rw [Delete_refused c k old f hfind hd hf]
    exact find_after_refusal _ _ _ _ hfind
  · rw [Delete_refused c k old f hfind hd hf]
    exact StdMap.keys_overwrite _ _ _
  · exact notifyAll_calls f c.m_Cache c hd

/-- C12 amended, on the cache `1 ↦ 10` guarded by the refusing handler: `Add(1, 99)` and
`Delete(1)` leave `1 ↦ 10` in place. -/
theorem OnDelete_verdict_honoured_by_Add_and_Delete_witness :
    StdMap.find Example.guarded.m_Cache 1 = some 10 ∧
      StdMap.find (Add Example.guarded 1 99).2.m_Cache 1 = some 10 ∧
      StdMap.find (Delete Example.guarded 1).m_Cache 1 = some 10 :=
  ⟨by decide,
   (OnDelete_verdict_honoured_by_Add_and_Delete Example.guarded 1 99 10 Example.refuse
      (by decide) rfl rfl).1.1,
   by decide⟩

theorem onAddCalls_addItem (c : QR_Cache T U) (k : T) (v : U) :
    onAddCalls (addItem c k v).2 =
      onAddCalls c ++ (if c.m_fOnAdd.isSome then [(k, v)] else []) := by
  unfold addItem
  cases h : c.m_fOnAdd with
  | none => simp [onAddCalls]
  | some g => simp [onAddCalls, List.filterMap_append]

theorem onAddCalls_Delete (c : QR_Cache T U) (k : T) : onAddCalls (Delete c k) = onAddCalls c := by
  cases hfind : StdMap.find c.m_Cache k with
  | none => rw [Delete_of_find_none c k hfind]
  | some old =>
    cases hd : c.m_fOnDelete with
    | none => rw [Delete_no_handler c k old hfind hd]; rfl
    | some f =>
      cases hf : (f k old).1 with
      | false =>
        rw [Delete_refused c k old f hfind hd hf]
        simp [onAddCalls, List.filterMap_append]
      | true =>
        rw [Delete_allowed c k old f hfind hd hf]
        simp [onAddCalls, List.filterMap_append]

theorem onAddCalls_Add (c : QR_Cache T U) (k : T) (v : U) :
    onAddCalls (Add c k v).2 =
      onAddCalls c ++
        (if (Add c k v).1 = true ∧ c.m_fOnAdd.isSome = true then [(k, v)] else []) := by
  cases hfind : StdMap.find c.m_Cache k with
  | none =>
    simp only [Add, hfind]
    rw [onAddCalls_addItem]; simp [addItem_fst]
  | some old =>
    cases hd : c.m_fOnDelete with
    | none =>
      simp only [Add, hfind, hd]
      rw [onAddCalls_addItem]; simp [addItem_fst, onAddCalls]
    | some f =>
      cases hf : (f k old).1 with
      | false =>
        rw [Add_refused c k v old f hfind hd hf]
        simp [onAddCalls, List.filterMap_append]
      | true =>
        simp only [Add, hfind, hd, callOnDelete, hf, Bool.not_true, Bool.false_eq_true, if_false]
        rw [onAddCalls_addItem]; simp [addItem_fst, onAddCalls, List.filterMap_append]

/-- C13. With an `OnAdd` handler set, an `Add(k, v)` that returns `true` invokes it exactly once,
with `(k, v)`, and an `Add` that returns `false` does not invoke it; `Get` and `Delete` never
invoke it.  (Without a handler nothing is invoked.) -/
theorem OnAdd_invoked_once_per_successful_Add (c : QR_Cache T U) (k : T) (v out : U) :
    (c.m_fOnAdd.isSome = true → (Add c k v).1 = true →
      onAddCalls (Add c k v).2 = onAddCalls c ++ [(k, v)]) ∧
    ((Add c k v).1 = false → onAddCalls (Add c k v).2 = onAddCalls c) ∧
    (c.m_fOnAdd = none → onAddCalls (Add c k v).2 = onAddCalls c) ∧
    onAddCalls (Get c k out).2.2 = onAddCalls c ∧
    onAddCalls (Delete c k) = onAddCalls c := by
  refine ⟨?_, ?_, ?_, ?_, onAddCalls_Delete c k⟩
  · intro hset hok
    rw [onAddCalls_Add, if_pos ⟨hok, hset⟩]
  · intro hfail
    rw [onAddCalls_Add]
    simp [hfail]
  · intro hnone
    rw [onAddCalls_Add]
    simp [hnone]
  · cases hfind : StdMap.find c.m_Cache k with
    | none => rw [Get_of_find_none c k out hfind]
    | some w => rw [Get_of_find_some c k out w hfind]

/-- C13, on the cache `1 ↦ 10, 3 ↦ 30` with both handlers set: `Add(1, 11)` and then `Add(2, 20)`
invoke `OnAdd` with `(1, 11)` and `(2, 20)`, `Delete(3)` and `Get(2)` add nothing. -/
theorem OnAdd_invoked_once_per_successful_Add_witness :
    onAddCalls (Add Example.observed 1 11).2 = [] ++ [(1, 11)] ∧
      onAddCalls (Delete (Add (Add Example.observed 1 11).2 2 20).2 3) = [(1, 11), (2, 20)] :=
  ⟨(OnAdd_invoked_once_per_successful_Add Example.observed 1 11 0).1 rfl (by decide),
   by decide⟩

end QR_Cache

/-! ## Collision detection -/

theorem collectHitsLoop_eq {Ray Polygon : Type} (hit : Ray → Polygon → Bool) (pRay : Ray)
    (polygons : List Polygon) :
    ∀ (steps i : Nat) (acc : List Polygon), polygons.length - i ≤ steps →
      collectHitsLoop hit pRay polygons steps i acc =
        acc ++ (polygons.drop i).filter (hit pRay) := by
  intro steps
  induction steps with
  | zero =>
    intro i acc hn
    have hle : polygons.length ≤ i := by omega
    rw [collectHitsLoop, List.drop_eq_nil_of_le hle]
    simp
  | succ n ih =>
    intro i acc hn
    by_cases hlt : i < polygons.length
    · rw [collectHitsLoop, dif_pos hlt, ih (i + 1) _ (by omega)]
      rw [List.drop_eq_getElem_cons hlt, List.filter_cons]
      by_cases hh : hit pRay polygons[i] = true
      · simp only [List.get_eq_getElem, hh, if_true, List.append_assoc, List.singleton_append]
      · simp only [List.get_eq_getElem, hh, if_false, Bool.false_eq_true]
    · rw [collectHitsLoop, dif_neg hlt, List.drop_eq_nil_of_le (Nat.not_lt.mp hlt)]
      simp

theorem collectHits_eq_filter {Ray Polygon : Type} (hit : Ray → Polygon → Bool) (pRay : Ray)
    (polygons : List Polygon) :
    collectHits hit pRay polygons = polygons.filter (hit pRay) := by
  rw [collectHits, collectHitsLoop_eq hit pRay polygons polygons.length 0 [] (by omega)]
  simp

/-- C14. For every ray and every candidate list `Resolve` returns, the list `polygonToDraw` the
three demos hand to their drawing code is the candidate list filtered by the exact test: the
same polygons in the same order, as often as they occur among the candidates.  Hence it is a
sublist of the candidates, each of its members is a candidate that passes the test, and it is no
longer than the candidate list. -/
theorem hit_list_is_filtered_candidates {Tree Ray Polygon : Type}
    (Resolve : Tree → Ray → List Polygon) (hit : Ray → Polygon → Bool) (tree : Tree) (pRay : Ray)
    (m_pOptions : MD2.TOptions) :
    (AABB.DrawScene Resolve hit tree pRay).1 = Resolve tree pRay ∧
    (AABB.DrawScene Resolve hit tree pRay).2 = (Resolve tree pRay).filter (hit pRay) ∧
    MD3.DetectAndDrawCollisions Resolve hit (some tree) true pRay =
      some ((Resolve tree pRay).filter (hit pRay)) ∧
    (MD2.Checked m_pOptions.ckShowCollisions = true →
      MD2.DetectAndDrawCollisions Resolve hit m_pOptions (some tree) pRay =
        some ((Resolve tree pRay).filter (hit pRay))) ∧
    ((AABB.DrawScene Resolve hit tree pRay).2).Sublist (Resolve tree pRay) ∧
    (∀ p ∈ (AABB.DrawScene Resolve hit tree pRay).2, p ∈ Resolve tree pRay ∧ hit pRay p = true) ∧
    ((AABB.DrawScene Resolve hit tree pRay).2).length ≤ (Resolve tree pRay).length := by
  have hd : (AABB.DrawScene Resolve hit tree pRay).2 = (Resolve tree pRay).filter (hit pRay) :=
    collectHits_eq_filter hit pRay _
  refine ⟨rfl, hd, ?_, ?_, ?_, ?_, ?_⟩
  · simp [MD3.DetectAndDrawCollisions, collectHits_eq_filter]
  · intro hc
    simp [MD2.DetectAndDrawCollisions, hc, collectHits_eq_filter]
  · rw [hd]; exact List.filter_sublist _
  · intro p hp
    rw [hd] at hp
    exact List.mem_filter.mp hp
  · rw [hd]; exact List.length_filter_le _ _

/-- C14, on the candidates `[4, 7, 4, 2]` with the test "is even": the hits are `[4, 4, 2]`. -/
theorem hit_list_is_filtered_candidates_witness :
    (AABB.DrawScene (fun (_ : Unit) (_ : Unit) => [4, 7, 4, 2]) (fun _ p => p % 2 == 0) () ()).2
        = [4, 4, 2] ∧
      MD2.DetectAndDrawCollisions (fun (_ : Unit) (_ : Unit) => [4, 7, 4, 2])
          (fun _ p => p % 2 == 0) Example.optionsCollisions (some ()) () = some [4, 4, 2] :=
  ⟨by decide,
   (hit_list_is_filtered_candidates (fun (_ : Unit) (_ : Unit) => [4, 7, 4, 2])
      (fun _ p => p % 2 == 0) () () Example.optionsCollisions).2.2.2.1 rfl⟩

/-! ## The MD2 draw handlers -/

namespace MD2

theorem Double.leZero_num (x : ℚ) : (Double.num x).leZero = decide (x ≤ 0) := rfl

theorem Double.geOne_num (x : ℚ) : (Double.num x).geOne = decide (x ≥ 1) := rfl

end MD2

/-! ### Lazy materialisation of frames -/

namespace TMainForm

variable {Mesh Tree : Type} [Inhabited Mesh] [Inhabited Tree]

theorem getFrameCalls_GetFrame (s : TMainForm Mesh Tree) (i : Nat) (pModel : TQRModel Mesh Tree)
    (uc : Bool) : getFrameCalls (GetFrame s i pModel uc).2 = getFrameCalls s ++ [i] := by
  cases h : StdMap.find s.m_Frames i with
  | some p =>
    rw [GetFrame_of_find_some s i pModel uc p h]
    simp [getFrameCalls, List.filterMap_append]
  | none =>
    rw [GetFrame_of_find_none s i pModel uc h]
    simp [getFrameCalls, List.filterMap_append]

theorem find_GetFrame_self (s : TMainForm Mesh Tree) (i : Nat) (pModel : TQRModel Mesh Tree)
    (uc : Bool) :
    StdMap.find (GetFrame s i pModel uc).2.m_Frames i = some (GetFrame s i pModel uc).1 := by
  cases h : StdMap.find s.m_Frames i with
  | some p => rw [GetFrame_of_find_some s i pModel uc p h]; exact h
  | none =>
    rw [GetFrame_of_find_none s i pModel uc h]
    exact StdMap.find_assign_self _ _ _

theorem mem_keys_GetFrame (s : TMainForm Mesh Tree) (i j : Nat) (pModel : TQRModel Mesh Tree)
    (uc : Bool) :
    j ∈ StdMap.keys (GetFrame s i pModel uc).2.m_Frames ↔ j ∈ StdMap.keys s.m_Frames ∨ j = i := by
  rw [← StdMap.find_isSome_iff_mem_keys, ← StdMap.find_isSome_iff_mem_keys]
  by_cases hj : j = i
  · subst hj
    rw [find_GetFrame_self]
    simp
  · rw [find_GetFrame_of_ne s i j pModel uc hj]
    simp [hj]

end TMainForm

namespace MD2

open TMainForm

variable {Mesh Tree : Type} [Inhabited Mesh] [Inhabited Tree]

theorem OnDrawCustomModelItem_le (w : Nat) (Interpolate : ℚ → Mesh → Mesh → Mesh)
    (m_pOptions : TOptions) (s : TMainForm Mesh Tree) (model : TQRModel Mesh Tree)
    (index nextIndex : Int) (factor : ℚ)
    (hi : index ≤ model.GetMeshCount) (hn : nextIndex ≤ model.GetMeshCount) (h0 : factor ≤ 0) :
    OnDrawCustomModelItem w Interpolate m_pOptions s (some model) index nextIndex factor =
      (some { pMeshToDraw :=
                (GetFrame s (toSizeT w index) model
                  (ptrToBool m_pOptions.ckShowCollisions)).1.obj.m_pMesh,
              pNextMeshToDraw := none,
              pAABBTree :=
                (GetFrame s (toSizeT w index) model
                  (ptrToBool m_pOptions.ckShowCollisions)).1.obj.m_pAABBTree,
              interpolated := false },
       (GetFrame s (toSizeT w index) model (ptrToBool m_pOptions.ckShowCollisions)).2) := by
  simp [OnDrawCustomModelItem, not_lt.mpr hi, not_lt.mpr hn, h0]

theorem OnDrawCustomModelItem_ge (w : Nat) (Interpolate : ℚ → Mesh → Mesh → Mesh)
    (m_pOptions : TOptions) (s : TMainForm Mesh Tree) (model : TQRModel Mesh Tree)
    (index nextIndex : Int) (factor : ℚ)
    (hi : index ≤ model.GetMeshCount) (hn : nextIndex ≤ model.GetMeshCount)
    (h0 : 0 < factor) (h1 : 1 ≤ factor) :
    OnDrawCustomModelItem w Interpolate m_pOptions s (some model) index nextIndex factor =
      (some { pMeshToDraw :=
                (GetFrame s (toSizeT w nextIndex) model
                  (ptrToBool m_pOptions.ckShowCollisions)).1.obj.m_pMesh,
              pNextMeshToDraw := none,
              pAABBTree :=
                (GetFrame s (toSizeT w nextIndex) model
                  (ptrToBool m_pOptions.ckShowCollisions)).1.obj.m_pAABBTree,
              interpolated := false },
       (GetFrame s (toSizeT w nextIndex) model (ptrToBool m_pOptions.ckShowCollisions)).2) := by
  simp [OnDrawCustomModelItem, not_lt.mpr hi, not_lt.mpr hn, not_le.mpr h0, h1]

theorem OnDrawCustomModelItem_between (w : Nat) (Interpolate : ℚ → Mesh → Mesh → Mesh)
    (m_pOptions : TOptions) (s : TMainForm Mesh Tree) (model : TQRModel Mesh Tree)
    (index nextIndex : Int) (factor : ℚ)
    (hi : index ≤ model.GetMeshCount) (hn : nextIndex ≤ model.GetMeshCount)
    (h0 : 0 < factor) (h1 : factor < 1) :
    (OnDrawCustomModelItem w Interpolate m_pOptions s (some model) index nextIndex factor).2 =
      (GetFrame (GetFrame s (toSizeT w index) model (ptrToBool m_pOptions.ckShowCollisions)).2
        (toSizeT w nextIndex) model (ptrToBool m_pOptions.ckShowCollisions)).2 ∧
    ∃ locals,
      (OnDrawCustomModelItem w Interpolate m_pOptions s (some model) index nextIndex factor).1 =
        some locals ∧
      locals.pAABBTree =
        (GetFrame s (toSizeT w index) model
          (ptrToBool m_pOptions.ckShowCollisions)).1.obj.m_pAABBTree := by
  by_cases hs : Checked m_pOptions.ckUseShader = true
  · simp [OnDrawCustomModelItem, not_lt.mpr hi, not_lt.mpr hn, not_le.mpr h0, not_le.mpr h1, hs]
  · simp [OnDrawCustomModelItem, not_lt.mpr hi, not_lt.mpr hn, not_le.mpr h0, not_le.mpr h1, hs]

/-- C18. For arguments that pass the bounds check, `OnDrawCustomModelItem` calls `GetFrame` for
`index` only when the factor is `≤ 0`, for `nextIndex` only when it is `≥ 1`, and for `index`
then `nextIndex` when it lies strictly between; the keys of the cache afterwards are the former
keys and the requested indices; and the tree handed to the collision detection is that of the
cached frame that is drawn (the frame of `index` when blending). -/
theorem OnDrawCustomModelItem_requests_frames_lazily (w : Nat)
    (Interpolate : ℚ → Mesh → Mesh → Mesh) (m_pOptions : TOptions) (s : TMainForm Mesh Tree)
    (model : TQRModel Mesh Tree) (index nextIndex : Int) (factor : ℚ)
    (r : Option (DrawLocals Mesh Tree) × TMainForm Mesh Tree)
    (hr : r = OnDrawCustomModelItem w Interpolate m_pOptions s (some model) index nextIndex factor)
    (hi : index ≤ model.GetMeshCount) (hn : nextIndex ≤ model.GetMeshCount) :
    (factor ≤ 0 →
      getFrameCalls r.2 = getFrameCalls s ++ [toSizeT w index] ∧
      (∀ j, j ∈ StdMap.keys r.2.m_Frames ↔ j ∈ StdMap.keys s.m_Frames ∨ j = toSizeT w index) ∧
      ∃ locals frame, r.1 = some locals ∧
        StdMap.find r.2.m_Frames (toSizeT w index) = some frame ∧
        locals.pMeshToDraw = frame.obj.m_pMesh ∧ locals.pAABBTree = frame.obj.m_pAABBTree) ∧
    (0 < factor → 1 ≤ factor →
      getFrameCalls r.2 = getFrameCalls s ++ [toSizeT w nextIndex] ∧
      (∀ j, j ∈ StdMap.keys r.2.m_Frames ↔
        j ∈ StdMap.keys s.m_Frames ∨ j = toSizeT w nextIndex) ∧
      ∃ locals frame, r.1 = some locals ∧
        StdMap.find r.2.m_Frames (toSizeT w nextIndex) = some frame ∧
        locals.pMeshToDraw = frame.obj.m_pMesh ∧ locals.pAABBTree = frame.obj.m_pAABBTree) ∧
    (0 < factor → factor < 1 →
      getFrameCalls r.2 = getFrameCalls s ++ [toSizeT w index, toSizeT w nextIndex] ∧
      (∀ j, j ∈ StdMap.keys r.2.m_Frames ↔
        j ∈ StdMap.keys s.m_Frames ∨ j = toSizeT w index ∨ j = toSizeT w nextIndex) ∧
      ∃ locals frame, r.1 = some locals ∧
        StdMap.find r.2.m_Frames (toSizeT w index) = some frame ∧
        locals.pAABBTree = frame.obj.m_pAABBTree) := by
  subst hr
  refine ⟨?_, ?_, ?_⟩
  · intro h0
    rw [OnDrawCustomModelItem_le w Interpolate m_pOptions s model index nextIndex factor hi hn h0]
    exact ⟨getFrameCalls_GetFrame _ _ _ _, fun j => mem_keys_GetFrame _ _ _ _ _,
      _, _, rfl, find_GetFrame_self _ _ _ _, rfl, rfl⟩
  · intro h0 h1
    rw [OnDrawCustomModelItem_ge w Interpolate m_pOptions s model index nextIndex factor hi hn
      h0 h1]
    exact ⟨getFrameCalls_GetFrame _ _ _ _, fun j => mem_keys_GetFrame _ _ _ _ _,
      _, _, rfl, find_GetFrame_self _ _ _ _, rfl, rfl⟩
  · intro h0 h1
    obtain ⟨hst, locals, hloc, htree⟩ :=
      OnDrawCustomModelItem_between w Interpolate m_pOptions s model index nextIndex factor
        hi hn h0 h1
    rw [hst]
    refine ⟨?_, ?_, locals, _, hloc, ?_, htree⟩
    · rw [getFrameCalls_GetFrame, getFrameCalls_GetFrame]; simp
    · intro j
      rw [mem_keys_GetFrame, mem_keys_GetFrame, or_assoc]
    · exact find_GetFrame_of_find_some _ _ _ _ _ _ (find_GetFrame_self _ _ _ _)

/-- C18, on the empty cache with a model of two meshes, `index = 0`, `nextIndex = 1`: factor `0`
caches frame `0` only, factor `1/2` caches frames `0` and `1`. -/
theorem OnDrawCustomModelItem_requests_frames_lazily_witness :
    StdMap.keys (OnDrawCustomModelItem 32 (fun _ a b => a ++ b) Example.options
        (init : TMainForm (List Nat) (List Nat)) (some Example.model) 0 1 0).2.m_Frames = [0] ∧
    getFrameCalls (OnDrawCustomModelItem 32 (fun _ a b => a ++ b) Example.options
        (init : TMainForm (List Nat) (List Nat)) (some Example.model) 0 1 (1 / 2)).2 =
      getFrameCalls (init : TMainForm (List Nat) (List Nat)) ++ [toSizeT 32 0, toSizeT 32 1] :=
  ⟨by decide,
   ((OnDrawCustomModelItem_requests_frames_lazily 32 (fun _ a b => a ++ b) Example.options
      init Example.model 0 1 (1 / 2) _ rfl (by decide) (by decide)).2.2
        (by norm_num) (by norm_num)).1⟩

/-- C19 fails on the code: with the show-collisions box unchecked, `OnDrawCustomModelItem`
still calls `GetFrame` with `useCollision = true` (it passes the pointer to the check box, not
its `Checked` state), and the frame it caches has a tree. -/
theorem OnDrawCustomModelItem_passes_true_when_unchecked :
    Checked Example.options.ckShowCollisions = false ∧
    (OnDrawCustomModelItem 32 (fun _ a b => a ++ b) Example.options
        (init : TMainForm (List Nat) (List Nat)) (some Example.model) 0 1 0).2.trace =
      [Event.callGetFrame 0 true, Event.newFrame 0 true, Event.getMesh 0 0] ∧
    StdMap.find (OnDrawCustomModelItem 32 (fun _ a b => a ++ b) Example.options
        (init : TMainForm (List Nat) (List Nat)) (some Example.model) 0 1 0).2.m_Frames 0 =
      some { addr := 0, obj := { m_pMesh := some [0], m_pAABBTree := some [0] } } := by
  refine ⟨rfl, ?_, ?_⟩ <;> decide

/-- C20 fails on the code: with the use-shader box unchecked, the options part of `LoadModel`
does not add `EQR_FO_Interpolate` (it tests the pointer to the check box, not its `Checked`
state). -/
theorem LoadModelOptions_omits_Interpolate_when_unchecked :
    Checked Example.optionsForm.ckUseShader = false ∧
    LoadModelOptions Example.optionsForm =
      some ([EQRModelOptions.EQR_MO_Without_Normals], []) ∧
    (∀ r, LoadModelOptions Example.optionsForm = some r →
      EQRFramedModelOptions.EQR_FO_Interpolate ∉ r.2) := by
  refine ⟨rfl, by decide, ?_⟩
  intro r hr
  have h : LoadModelOptions Example.optionsForm =
      some ([EQRModelOptions.EQR_MO_Without_Normals], []) := by decide
  rw [h] at hr
  cases hr
  simp

end MD2

/-! ## The MD3 draw routine without shader -/

namespace MD3

open TMainForm

/-- Without shader, and with indices that pass its bounds check, the MD3 `DrawModel` looks up
the frames of `index` and `nextIndex` and draws what `Interpolate` makes of their meshes with the
factor it was given. -/
theorem DrawModel_without_shader {Mesh Tree : Type} [Inhabited Mesh] [Inhabited Tree] (w : Nat)
    (Interpolate : ℚ → Mesh → Mesh → Mesh) (s : TMainForm Mesh Tree)
    (model : TQRModel Mesh Tree) (index nextIndex : Int) (factor : ℚ) (collisions : Bool)
    (hi : index ≤ model.GetMeshCount) (hn : nextIndex ≤ model.GetMeshCount) :
    DrawModel w Interpolate s (some model) index nextIndex factor false collisions =
      (some { pMeshToDraw :=
                interpolateInto Interpolate factor
                  (GetFrame s (toSizeT w index) model collisions).1.obj.m_pMesh
                  (GetFrame (GetFrame s (toSizeT w index) model collisions).2
                    (toSizeT w nextIndex) model collisions).1.obj.m_pMesh,
              pNextMeshToDraw := none,
              pAABBTree := (GetFrame s (toSizeT w index) model collisions).1.obj.m_pAABBTree,
              interpolated := true },
       (GetFrame (GetFrame s (toSizeT w index) model collisions).2
         (toSizeT w nextIndex) model collisions).2) := by
  simp [DrawModel, not_lt.mpr hi, not_lt.mpr hn]

end MD3

/-! ## `CompareBuffers` -/

namespace QR_MemoryTools

/-- C23 fails on the code: on two buffers of three bytes that differ in the middle byte only,
with `blockLength = 1` (three blocks), the `IE_BC_Symmetric` mode returns `true` where the
`IE_BC_FromStartToEnd` mode returns `false`. -/
theorem Symmetric_skips_middle_block :
    Example.zeros3.m_pBuffer ≠ Example.middle3.m_pBuffer ∧
    Example.zeros3.m_Length = Example.middle3.m_Length ∧
    CompareBuffers Example.zeros3 Example.middle3 IEBufferCompType.IE_BC_Symmetric 1 =
      some true ∧
    CompareBuffers Example.zeros3 Example.middle3 IEBufferCompType.IE_BC_FromStartToEnd 1 =
      some false := by
  refine ⟨by decide, rfl, by decide, by decide⟩

theorem drop_block_split (r : List Nat) (off B : Nat) :
    r.drop off = (r.drop off).take (min B (r.length - off)) ++ r.drop (off + B) := by
  have h : r.drop (off + B) = (r.drop off).drop (min B (r.length - off)) := by
    rw [List.drop_drop]
    by_cases hB : B ≤ r.length - off
    · rw [min_eq_left hB, Nat.add_comm]
    · have hlt : r.length - off < B := Nat.lt_of_not_le hB
      rw [min_eq_right (Nat.le_of_lt hlt)]
      rw [List.drop_eq_nil_of_le (by omega), List.drop_eq_nil_of_le (by omega)]
  rw [h, List.take_append_drop]

theorem drop_eq_iff_block (p q : List Nat) (hpq : p.length = q.length) (off B : Nat) :
    p.drop off = q.drop off ↔
      ((p.drop off).take (min B (p.length - off)) = (q.drop off).take (min B (p.length - off)) ∧
        p.drop (off + B) = q.drop (off + B)) := by
  constructor
  · intro h
    refine ⟨by rw [h], ?_⟩
    have hp : p.drop (off + B) = (p.drop off).drop B := by rw [List.drop_drop, Nat.add_comm]
    have hq : q.drop (off + B) = (q.drop off).drop B := by rw [List.drop_drop, Nat.add_comm]
    rw [hp, hq, h]
  · rintro ⟨h1, h2⟩
    rw [drop_block_split p off B, drop_block_split q off B, ← hpq, h1, h2]

theorem compareLoop_FromStartToEnd (p q : List Nat) (hpq : p.length = q.length)
    (B count : Nat) (hcount : p.length ≤ count * B) :
    ∀ (steps i : Nat), count - i ≤ steps →
      compareLoop p q p.length IEBufferCompType.IE_BC_FromStartToEnd B count steps i =
        decide (p.drop (i * B) = q.drop (i * B)) := by
  have hdone : ∀ i, count ≤ i → p.drop (i * B) = q.drop (i * B) := by
    intro i hi
    have hle : p.length ≤ i * B := le_trans hcount (Nat.mul_le_mul_right B hi)
    rw [List.drop_eq_nil_of_le hle, List.drop_eq_nil_of_le (hpq ▸ hle)]
  intro steps
  induction steps with
  | zero =>
    intro i hi
    have : count ≤ i := by omega
    simp [compareLoop, hdone i this]
  | succ n ih =>
    intro i hi
    by_cases hlt : i < count
    · have hsplit := drop_eq_iff_block p q hpq (i * B) B
      have hnext : i * B + B = (i + 1) * B := by rw [Nat.add_mul, Nat.one_mul]
      rw [hnext] at hsplit
      simp only [compareLoop, hlt, if_true, sameBlock]
      rw [ih (i + 1) (by omega)]
      by_cases hblock : (p.drop (i * B)).take (min B (p.length - i * B)) =
          (q.drop (i * B)).take (min B (p.length - i * B))
      · by_cases hrest : p.drop ((i + 1) * B) = q.drop ((i + 1) * B)
        · simp [hblock, hrest, hsplit.mpr ⟨hblock, hrest⟩]
        · have : ¬ p.drop (i * B) = q.drop (i * B) := fun h => hrest (hsplit.mp h).2
          simp [hblock, hrest, this]
      · have : ¬ p.drop (i * B) = q.drop (i * B) := fun h => hblock (hsplit.mp h).1
        simp [hblock, this]
    · have : count ≤ i := Nat.le_of_not_lt hlt
      simp [compareLoop, hlt, hdone i this]

theorem block_count_covers (len B : Nat) (hB : 0 < B) :
    len ≤ (len / B + (if len % B ≠ 0 then 1 else 0)) * B := by
  have h := Nat.div_add_mod len B
  have hm := Nat.mod_lt len hB
  by_cases hr : len % B = 0
  · simp only [hr, ne_eq, not_true_eq_false, if_false, Nat.add_zero]
    rw [Nat.mul_comm]; omega
  · simp only [hr, ne_eq, not_false_eq_true, if_true, Nat.add_mul, Nat.one_mul]
    rw [Nat.mul_comm]; omega

theorem CompareBuffers_FromStartToEnd (buffer1 buffer2 : IBuffer) (p q : List Nat)
    (blockLength : Nat) (h1 : buffer1.m_pBuffer = some p) (h2 : buffer2.m_pBuffer = some q)
    (hl1 : p.length = buffer1.m_Length) (hl2 : q.length = buffer2.m_Length)
    (hlen : buffer1.m_Length = buffer2.m_Length) (hB : 0 < blockLength) :
    CompareBuffers buffer1 buffer2 IEBufferCompType.IE_BC_FromStartToEnd blockLength =
      some (decide (p = q)) := by
  have hpq : p.length = q.length := by rw [hl1, hl2, hlen]
  have hB0 : blockLength ≠ 0 := Nat.pos_iff_ne_zero.mp hB
  simp only [CompareBuffers, h1, h2, hlen, ne_eq, not_true_eq_false, if_false, hB0]
  rw [← hlen, ← hl1]
  rw [compareLoop_FromStartToEnd p q hpq blockLength _ (block_count_covers p.length blockLength hB)
    _ 0 (Nat.sub_le _ _)]
  simp

theorem eq_iff_bytes_agree (p q : List Nat) (len : Nat) (hp : p.length = len)
    (hq : q.length = len) : p = q ↔ ∀ k, k < len → p[k]? = q[k]? := by
  constructor
  · intro h k _; rw [h]
  · intro h
    apply List.ext_getElem?
    intro k
    by_cases hk : k < len
    · exact h k hk
    · rw [List.getElem?_eq_none (by omega), List.getElem?_eq_none (by omega)]

theorem blocks_cover (len B k : Nat) (hB : 0 < B) (hk : k < len) :
    ∃ i, i < len / B + (if len % B ≠ 0 then 1 else 0) ∧
      i * B ≤ k ∧ k < i * B + min B (len - i * B) := by
  refine ⟨k / B, ?_, Nat.div_mul_le_self k B, ?_⟩
  · have hc := block_count_covers len B hB
    rw [Nat.mul_comm] at hc
    exact Nat.div_lt_of_lt_mul (Nat.lt_of_lt_of_le hk hc)
  · have h1 := Nat.div_add_mod k B
    have h2 := Nat.mod_lt k hB
    have h3 : k / B * B = B * (k / B) := Nat.mul_comm _ _
    rcases Nat.le_total B (len - k / B * B) with h | h
    · rw [min_eq_left h]; omega
    · rw [min_eq_right h]; omega

/-- C24. For two non-null buffers of equal length and a `blockLength > 0`, `CompareBuffers` in
`IE_BC_FromStartToEnd` mode returns a result, and returns `true` exactly when the buffers agree
at every byte position; every position lies in one of the blocks it compares (the last block
being cut at the end of the buffer); and the result is the same for every other block
length. -/
theorem FromStartToEnd_compares_every_byte (buffer1 buffer2 : IBuffer) (p q : List Nat)
    (blockLength : Nat) (h1 : buffer1.m_pBuffer = some p) (h2 : buffer2.m_pBuffer = some q)
    (hl1 : p.length = buffer1.m_Length) (hl2 : q.length = buffer2.m_Length)
    (hlen : buffer1.m_Length = buffer2.m_Length) (hB : 0 < blockLength) :
    (CompareBuffers buffer1 buffer2 IEBufferCompType.IE_BC_FromStartToEnd blockLength =
        some true ∨
      CompareBuffers buffer1 buffer2 IEBufferCompType.IE_BC_FromStartToEnd blockLength =
        some false) ∧
    (CompareBuffers buffer1 buffer2 IEBufferCompType.IE_BC_FromStartToEnd blockLength =
        some true ↔
      ∀ k, k < buffer1.m_Length → p[k]? = q[k]?) ∧
    (∀ k, k < buffer1.m_Length →
      ∃ i, i < buffer1.m_Length / blockLength +
          (if buffer1.m_Length % blockLength ≠ 0 then 1 else 0) ∧
        i * blockLength ≤ k ∧
        k < i * blockLength + min blockLength (buffer1.m_Length - i * blockLength)) ∧
    (∀ other, 0 < other →
      CompareBuffers buffer1 buffer2 IEBufferCompType.IE_BC_FromStartToEnd other =
        CompareBuffers buffer1 buffer2 IEBufferCompType.IE_BC_FromStartToEnd blockLength) := by
  have hres := CompareBuffers_FromStartToEnd buffer1 buffer2 p q blockLength h1 h2 hl1 hl2 hlen hB
  refine ⟨?_, ?_, ?_, ?_⟩
  · rw [hres]
    by_cases hpq : p = q <;> simp [hpq]
  · rw [hres, ← eq_iff_bytes_agree p q buffer1.m_Length hl1 (by rw [hl2, hlen])]
    simp
  · intro k hk
    exact blocks_cover buffer1.m_Length blockLength k hB hk
  · intro other ho
    rw [hres, CompareBuffers_FromStartToEnd buffer1 buffer2 p q other h1 h2 hl1 hl2 hlen ho]

/-- C24, on two buffers of five bytes that differ in the last byte, with `blockLength = 2`
(blocks of 2, 2 and 1 bytes): the result is `false`; a buffer compared with itself gives
`true`. -/
theorem FromStartToEnd_compares_every_byte_witness :
    CompareBuffers Example.bytes5 Example.bytes5last IEBufferCompType.IE_BC_FromStartToEnd 2 =
        some false ∧
      (CompareBuffers Example.bytes5 Example.bytes5 IEBufferCompType.IE_BC_FromStartToEnd 2 =
          some true ↔
        ∀ k, k < Example.bytes5.m_Length → [1, 2, 3, 4, 5][k]? = [1, 2, 3, 4, 5][k]?) :=
  ⟨by decide,
   (FromStartToEnd_compares_every_byte Example.bytes5 Example.bytes5 [1, 2, 3, 4, 5]
      [1, 2, 3, 4, 5] 2 rfl rfl rfl rfl rfl (by decide)).2.1⟩

end QR_MemoryTools

/-! ## Vertex buffers are filled exactly -/

theorem applyWrites_consecutive : ∀ (writes : List (Nat × ℚ)) (k : Nat) (buffer : List ℚ),
    writes.map Prod.fst = List.range' k writes.length → k + writes.length ≤ buffer.length →
    applyWrites buffer writes =
      buffer.take k ++ writes.map Prod.snd ++ buffer.drop (k + writes.length)
  | [], k, buffer, _, _ => by simp [applyWrites]
  | w :: rest, k, buffer, hidx, hlen => by
    simp only [List.map_cons, List.length_cons, List.range'_succ, List.cons.injEq] at hidx
    obtain ⟨hw, hrest⟩ := hidx
    simp only [List.length_cons] at hlen
    have ih := applyWrites_consecutive rest (k + 1) (buffer.set w.1 w.2) hrest
      (by rw [List.length_set]; omega)
    simp only [applyWrites, List.foldl_cons] at ih ⊢
    rw [ih, hw]
    have hk : k < buffer.length := by omega
    have hset : buffer.set k w.2 = (buffer.take k ++ [w.2]) ++ buffer.drop (k + 1) := by
      rw [List.set_eq_take_cons_drop _ hk]; simp
    have hl : (buffer.take k ++ [w.2]).length = k + 1 := by
      simp [List.length_take, Nat.min_eq_left (Nat.le_of_lt hk)]
    have htake : (buffer.set k w.2).take (k + 1) = buffer.take k ++ [w.2] := by
      rw [hset]; exact List.take_left' hl
    have hdrop : (buffer.set k w.2).drop (k + 1 + rest.length) =
        buffer.drop (k + (rest.length + 1)) := by
      rw [← List.drop_drop, hset, List.drop_left' hl, List.drop_drop]
      congr 1
      omega
    rw [htake, hdrop]
    simp

theorem applyWrites_fills (writes : List (Nat × ℚ)) (n : Nat)
    (hidx : writes.map Prod.fst = List.range n) :
    applyWrites (List.replicate n 0) writes = writes.map Prod.snd := by
  have hlen : writes.length = n := by
    have := congrArg List.length hidx
    simpa using this
  have h := applyWrites_consecutive writes 0 (List.replicate n 0)
    (by rw [hlen, ← List.range_eq_range']; exact hidx) (by simp [hlen])
  rw [h]
  simp [hlen]

theorem highlightWrites_fst (offset : Nat) (p : TQRPolygon) :
    (highlightWrites offset p).map Prod.fst = List.range' offset 21 := by
  simp [highlightWrites, List.range'_succ]

theorem highlightWrites_length (offset : Nat) (p : TQRPolygon) :
    (highlightWrites offset p).length = 21 := rfl

theorem highlightWrites_snd (offset : Nat) (p : TQRPolygon) :
    (highlightWrites offset p).map Prod.snd =
      [p.Vertex1.X, p.Vertex1.Y, p.Vertex1.Z, 1, 0, 0, 1,
       p.Vertex2.X, p.Vertex2.Y, p.Vertex2.Z, 4 / 5, 0, 1 / 5, 1,
       p.Vertex3.X, p.Vertex3.Y, p.Vertex3.Z, 1, 3 / 25, 1 / 5, 1] := rfl

theorem highlightLoop_fst (polygonToDraw : List TQRPolygon) :
    ∀ (steps i offset : Nat), polygonToDraw.length - i ≤ steps →
      (highlightLoop polygonToDraw 7 steps i offset).map Prod.fst =
        List.range' offset (21 * (polygonToDraw.length - i)) := by
  intro steps
  induction steps with
  | zero =>
    intro i offset h
    have : polygonToDraw.length - i = 0 := by omega
    simp [highlightLoop, this]
  | succ n ih =>
    intro i offset h
    by_cases hlt : i < polygonToDraw.length
    · rw [highlightLoop, dif_pos hlt, List.map_append, highlightWrites_fst,
        ih (i + 1) (offset + 7 * 3) (by omega)]
      have hsplit : 21 * (polygonToDraw.length - i) =
          21 * (polygonToDraw.length - (i + 1)) + 21 := by omega
      have h73 : offset + 7 * 3 = offset + 21 := rfl
      rw [hsplit, ← List.range'_append_1, h73]
    · have : polygonToDraw.length - i = 0 := by omega
      simp [highlightLoop, hlt, this]

theorem highlightLoop_snd (polygonToDraw : List TQRPolygon) :
    ∀ (steps i offset : Nat), polygonToDraw.length - i ≤ steps →
      ∀ (i2 : Nat) (h2 : i2 < polygonToDraw.length), i ≤ i2 → ∀ j, j < 21 →
        ((highlightLoop polygonToDraw 7 steps i offset).map Prod.snd)[21 * (i2 - i) + j]? =
          ((highlightWrites 0 (polygonToDraw.get ⟨i2, h2⟩)).map Prod.snd)[j]? := by
  intro steps
  induction steps with
  | zero => intro i offset h i2 h2 hi; omega
  | succ n ih =>
    intro i offset h i2 h2 hi j hj
    have hlt : i < polygonToDraw.length := by omega
    rw [highlightLoop, dif_pos hlt, List.map_append]
    by_cases heq : i2 = i
    · subst heq
      rw [Nat.sub_self, Nat.mul_zero, Nat.zero_add,
        List.getElem?_append_left (by simp [highlightWrites_length]; exact hj)]
      rfl
    · have hlen : ((highlightWrites offset (polygonToDraw.get ⟨i, hlt⟩)).map Prod.snd).length
          = 21 := by simp [highlightWrites_length]
      rw [List.getElem?_append_right (by rw [hlen]; omega), hlen]
      have hidx : 21 * (i2 - i) + j - 21 = 21 * (i2 - (i + 1)) + j := by omega
      rw [hidx]
      exact ih (i + 1) (offset + 7 * 3) (by omega) i2 h2 (by omega) j hj

namespace MD2

/-- C21. For a non-empty hit list of `n` polygons, the highlight mesh `DetectAndDrawCollisions`
builds is one buffer of stride `7` and of exactly `21 * n` floats, a multiple of the stride;
the loop writes the indices `0, 1, ..., 21 * n - 1` in this order, so every write is below the
buffer length and every slot is written exactly once; and the positions `21 * i + 7 * k`,
`+ 1`, `+ 2` hold `X`, `Y`, `Z` of vertex `k` of hit polygon `i`, followed by the four colour
components. -/
theorem HighlightMesh_layout (polygonToDraw : List TQRPolygon) (hne : polygonToDraw ≠ []) :
    ∃ v : TQRVertex, HighlightMesh polygonToDraw = some [v] ∧
      v.m_Stride = 7 ∧
      v.m_Buffer.length = 21 * polygonToDraw.length ∧
      v.m_Buffer.length % v.m_Stride = 0 ∧
      (highlightLoop polygonToDraw 7 polygonToDraw.length 0 0).map Prod.fst =
        List.range v.m_Buffer.length ∧
      (∀ w ∈ highlightLoop polygonToDraw 7 polygonToDraw.length 0 0,
        w.1 < v.m_Buffer.length) ∧
      (∀ k, k < v.m_Buffer.length →
        ((highlightLoop polygonToDraw 7 polygonToDraw.length 0 0).map Prod.fst).count k = 1) ∧
      (∀ (i : Nat) (h : i < polygonToDraw.length) (j : Nat), j < 21 →
        v.m_Buffer[21 * i + j]? =
          [(polygonToDraw.get ⟨i, h⟩).Vertex1.X, (polygonToDraw.get ⟨i, h⟩).Vertex1.Y,
           (polygonToDraw.get ⟨i, h⟩).Vertex1.Z, 1, 0, 0, 1,
           (polygonToDraw.get ⟨i, h⟩).Vertex2.X, (polygonToDraw.get ⟨i, h⟩).Vertex2.Y,
           (polygonToDraw.get ⟨i, h⟩).Vertex2.Z, 4 / 5, 0, 1 / 5, 1,
           (polygonToDraw.get ⟨i, h⟩).Vertex3.X, (polygonToDraw.get ⟨i, h⟩).Vertex3.Y,
           (polygonToDraw.get ⟨i, h⟩).Vertex3.Z, 1, 3 / 25, 1 / 5, 1][j]?) := by
  have hn : polygonToDraw.length ≠ 0 := fun h => hne (List.length_eq_zero.mp h)
  have hfst : (highlightLoop polygonToDraw 7 polygonToDraw.length 0 0).map Prod.fst =
      List.range (21 * polygonToDraw.length) := by
    rw [highlightLoop_fst polygonToDraw _ 0 0 (by omega), List.range_eq_range']
    simp
  have hbuf : applyWrites (List.replicate (polygonToDraw.length * (7 * 3)) 0)
      (highlightLoop polygonToDraw 7 polygonToDraw.length 0 0) =
      (highlightLoop polygonToDraw 7 polygonToDraw.length 0 0).map Prod.snd := by
    have h21 : polygonToDraw.length * (7 * 3) = 21 * polygonToDraw.length := by omega
    rw [h21]
    exact applyWrites_fills _ _ hfst
  have hlen : ((highlightLoop polygonToDraw 7 polygonToDraw.length 0 0).map Prod.snd).length =
      21 * polygonToDraw.length := by
    have := congrArg List.length hfst
    simpa using this
  refine ⟨{ m_Type := EQRVertexType.EQR_VT_Triangles,
            m_CoordType := EQRVertexCoordType.EQR_VC_XYZ,
            m_Stride := 7,
            m_Format := [EQRVertexFormat.EQR_VF_Colors],
            m_Buffer :=
              applyWrites (List.replicate (polygonToDraw.length * (7 * 3)) 0)
                (highlightLoop polygonToDraw 7 polygonToDraw.length 0 0) },
    by simp only [HighlightMesh, hn, if_false], rfl, ?_, ?_, ?_, ?_, ?_, ?_⟩
  · show (applyWrites _ _).length = _
    rw [hbuf, hlen]
  · show (applyWrites _ _).length % 7 = 0
    rw [hbuf, hlen]
    omega
  · show _ = List.range (applyWrites _ _).length
    rw [hbuf, hlen, hfst]
  · intro w hw
    show w.1 < (applyWrites _ _).length
    rw [hbuf, hlen]
    have : w.1 ∈ (highlightLoop polygonToDraw 7 polygonToDraw.length 0 0).map Prod.fst :=
      List.mem_map_of_mem _ hw
    rw [hfst] at this
    exact List.mem_range.mp this
  · intro k hk
    have hk2 : k < 21 * polygonToDraw.length := by
      have : (applyWrites (List.replicate (polygonToDraw.length * (7 * 3)) 0)
        (highlightLoop polygonToDraw 7 polygonToDraw.length 0 0)).length
          = 21 * polygonToDraw.length := by rw [hbuf, hlen]
      exact this ▸ hk
    rw [hfst]
    exact List.count_eq_one_of_mem (List.nodup_range _) (List.mem_range.mpr hk2)
  · intro i h j hj
    show (applyWrites _ _)[21 * i + j]? = _
    rw [hbuf]
    have := highlightLoop_snd polygonToDraw polygonToDraw.length 0 0 (Nat.sub_le _ _) i h
      (Nat.zero_le _) j hj
    rw [Nat.sub_zero] at this
    rw [this, highlightWrites_snd]

/-- C21, on the hit list made of the unit triangle: one buffer of stride `7` and `21` floats,
three vertices of `X, Y, Z` and four colour components each. -/
theorem HighlightMesh_layout_witness :
    [Example.unitTriangle] ≠ [] ∧
      HighlightMesh [Example.unitTriangle] =
        some [{ m_Type := EQRVertexType.EQR_VT_Triangles,
                m_CoordType := EQRVertexCoordType.EQR_VC_XYZ,
                m_Stride := 7,
                m_Format := [EQRVertexFormat.EQR_VF_Colors],
                m_Buffer := [0, 0, 0, 1, 0, 0, 1,
                             1, 0, 0, 4 / 5, 0, 1 / 5, 1,
                             0, 1, 0, 1, 3 / 25, 1 / 5, 1] }] ∧
      ∃ v : TQRVertex, HighlightMesh [Example.unitTriangle] = some [v] ∧ v.m_Stride = 7 ∧
        v.m_Buffer.length = 21 * [Example.unitTriangle].length :=
  ⟨List.cons_ne_nil _ _, rfl,
   (HighlightMesh_layout [Example.unitTriangle] (List.cons_ne_nil _ _)).imp
     (fun _ h => ⟨h.1, h.2.1, h.2.2.1⟩)⟩

end MD2

namespace AABB

theorem sphereVertexWrites_spec (m_Format : List EQRVertexFormat) (index : Nat)
    (position normal : ℚ × ℚ × ℚ) (texCoords : ℚ × ℚ) (color : Nat) :
    (sphereVertexWrites m_Format index position normal texCoords color).1.map Prod.fst =
        List.range' index (vertexSize m_Format) ∧
      (sphereVertexWrites m_Format index position normal texCoords color).2 =
        index + vertexSize m_Format := by
  unfold sphereVertexWrites vertexSize
  by_cases hn : EQRVertexFormat.EQR_VF_Normals ∈ m_Format <;>
    by_cases ht : EQRVertexFormat.EQR_VF_TexCoords ∈ m_Format <;>
    by_cases hc : EQRVertexFormat.EQR_VF_Colors ∈ m_Format <;>
    simp [hn, ht, hc, List.range'_succ, Nat.add_assoc]

theorem sphereStackLoop_spec (sinf cosf : ℚ → ℚ) (radius : ℚ) (slices nstacks color : Nat)
    (m_Format : List EQRVertexFormat) (minorStep r0 r1 z0 z1 : ℚ) (i : Nat) :
    ∀ (steps j index : Nat), nstacks + 1 - j ≤ steps →
      (sphereStackLoop sinf cosf radius slices nstacks color m_Format minorStep r0 r1 z0 z1 i
          steps j index).1.map Prod.fst =
        List.range' index (2 * vertexSize m_Format * (nstacks + 1 - j)) ∧
      (sphereStackLoop sinf cosf radius slices nstacks color m_Format minorStep r0 r1 z0 z1 i
          steps j index).2 =
        index + 2 * vertexSize m_Format * (nstacks + 1 - j) := by
  intro steps
  induction steps with
  | zero =>
    intro j index h
    have : nstacks + 1 - j = 0 := by omega
    simp [sphereStackLoop, this]
  | succ n ih =>
    intro j index h
    by_cases hj : j ≤ nstacks
    · simp only [sphereStackLoop, hj, if_true, List.map_append]
      generalize hc : cosf ((j : ℚ) * minorStep) = x
      generalize hs : sinf ((j : ℚ) * minorStep) = y
      obtain ⟨f1, f2⟩ := sphereVertexWrites_spec m_Format index (x * r0, y * r0, z0)
        (x * r0 / radius, y * r0 / radius, z0 / radius)
        ((j : ℚ) / (nstacks : ℚ), (i : ℚ) / (slices : ℚ)) color
      rw [f1, f2]
      obtain ⟨s1, s2⟩ := sphereVertexWrites_spec m_Format (index + vertexSize m_Format)
        (x * r1, y * r1, z1) (x * r1 / radius, y * r1 / radius, z1 / radius)
        ((j : ℚ) / (nstacks : ℚ), ((i : ℚ) + 1) / (slices : ℚ)) color
      rw [s1, s2]
      obtain ⟨t1, t2⟩ := ih (j + 1) (index + vertexSize m_Format + vertexSize m_Format)
        (by omega)
      rw [t1, t2]
      have hsplit : nstacks + 1 - j = (nstacks + 1 - (j + 1)) + 1 := by omega
      rw [hsplit, Nat.mul_add, Nat.mul_one]
      constructor
      · rw [List.range'_append_1, Nat.add_assoc index, List.range'_append_1]
        congr 1
        omega
      · omega
    · have : nstacks + 1 - j = 0 := by omega
      simp [sphereStackLoop, hj, this]

theorem sphereSliceWrites_spec (sinf cosf : ℚ → ℚ) (pi radius : ℚ) (slices nstacks color : Nat)
    (m_Format : List EQRVertexFormat) (i : Nat) :
    (sphereSliceWrites sinf cosf pi radius slices nstacks color m_Format i).1.map Prod.fst =
        List.range ((nstacks + 1) * vertexSize m_Format * 2) ∧
      (sphereSliceWrites sinf cosf pi radius slices nstacks color m_Format i).2 =
        (nstacks + 1) * vertexSize m_Format * 2 := by
  unfold sphereSliceWrites
  obtain ⟨h1, h2⟩ := sphereStackLoop_spec sinf cosf radius slices nstacks color m_Format
    (2 * pi / (nstacks : ℚ))
    (radius * sinf ((i : ℚ) * (pi / (slices : ℚ))))
    (radius * sinf ((i : ℚ) * (pi / (slices : ℚ)) + pi / (slices : ℚ)))
    (radius * cosf ((i : ℚ) * (pi / (slices : ℚ))))
    (radius * cosf ((i : ℚ) * (pi / (slices : ℚ)) + pi / (slices : ℚ)))
    i (nstacks + 1) 0 0 (Nat.sub_le _ _)
  have hlen : 2 * vertexSize m_Format * (nstacks + 1 - 0) =
      (nstacks + 1) * vertexSize m_Format * 2 := by
    rw [Nat.sub_zero, Nat.mul_comm 2, Nat.mul_comm (vertexSize m_Format * 2), Nat.mul_assoc]
  simp only [] at h1 h2 ⊢
  rw [h1, h2, hlen, List.range_eq_range', Nat.zero_add]
  exact ⟨rfl, rfl⟩

end AABB

theorem applyWrites_fills_buffer (buffer : List ℚ) (writes : List (Nat × ℚ))
    (hidx : writes.map Prod.fst = List.range buffer.length) :
    applyWrites buffer writes = writes.map Prod.snd := by
  have hlen : writes.length = buffer.length := by
    have := congrArg List.length hidx
    simpa using this
  have h := applyWrites_consecutive writes 0 buffer
    (by rw [hlen, ← List.range_eq_range']; exact hidx) (by simp [hlen])
  rw [h]
  simp [hlen]

namespace AABB

theorem setLength_length (buffer : List ℚ) (n : Nat) : (setLength buffer n).length = n := by
  simp only [setLength, List.length_append, List.length_take, List.length_replicate]
  omega

theorem applyWritesChecked_of_lt : ∀ (writes : List (Nat × ℚ)) (buffer : List ℚ),
    (∀ x ∈ writes, x.1 < buffer.length) →
    applyWritesChecked buffer writes = some (applyWrites buffer writes)
  | [], _, _ => rfl
  | x :: ws, buffer, h => by
    have hx : x.1 < buffer.length := h x (List.mem_cons_self _ _)
    simp only [applyWritesChecked, hx, if_true, applyWrites, List.foldl_cons]
    exact applyWritesChecked_of_lt ws _
      (fun y hy => by simpa using h y (List.mem_cons_of_mem _ hy))

theorem applyWritesChecked_none : ∀ (writes : List (Nat × ℚ)) (k : Nat) (buffer : List ℚ),
    writes.map Prod.fst = List.range' k writes.length → k ≤ buffer.length →
    buffer.length < k + writes.length → applyWritesChecked buffer writes = none
  | [], k, buffer, _, hk, hlt => by simp at hlt; omega
  | x :: ws, k, buffer, hidx, hk, hlt => by
    simp only [List.map_cons, List.length_cons, List.range'_succ, List.cons.injEq] at hidx
    obtain ⟨hx, hrest⟩ := hidx
    by_cases hlt2 : x.1 < buffer.length
    · simp only [applyWritesChecked, hlt2, if_true]
      refine applyWritesChecked_none ws (k + 1) _ hrest ?_ ?_
      · simp only [List.length_set]; omega
      · simp only [List.length_set, List.length_cons] at hlt ⊢; omega
    · simp [applyWritesChecked, hlt2]

theorem vertexSize_pos (m_Format : List EQRVertexFormat) : 0 < vertexSize m_Format := by
  unfold vertexSize
  omega

theorem toInt_of_le (w x : Nat) (hw : 32 ≤ w) (hx : x ≤ INT_MAX) :
    toInt (x % 2 ^ w) = (x : Int) := by
  have h31 : x < 2 ^ 31 := by
    have : INT_MAX = 2 ^ 31 - 1 := rfl
    omega
  have h32 : x < 2 ^ 32 := by omega
  have hw2 : (2 : Nat) ^ 32 ≤ 2 ^ w := Nat.pow_le_pow_right (by decide) hw
  rw [Nat.mod_eq_of_lt (lt_of_lt_of_le h32 hw2)]
  simp only [toInt, Nat.mod_eq_of_lt h32, h31, if_true]

theorem sphereSliceLoop_spec (w : Nat) (sinf cosf : ℚ → ℚ) (pi radius : ℚ)
    (slices nstacks color : Nat) (vertex : TQRVertex) (hw : 32 ≤ w)
    (hstride : vertex.m_Stride = vertexSize vertex.m_Format)
    (hfit : (nstacks + 1) * vertexSize vertex.m_Format * 2 ≤ INT_MAX) :
    ∀ (steps i : Nat) (mesh : TQRMesh), slices + 1 - i ≤ steps → slices < INT_MAX →
      mesh.length + (slices + 1 - i) ≤ INT_MAX →
      sphereSliceLoop w sinf cosf pi radius slices nstacks color vertex steps i mesh =
        some (mesh ++ (List.range' i (slices + 1 - i)).map (fun k =>
          { vertex with
            m_Buffer :=
              (sphereSliceWrites sinf cosf pi radius slices nstacks color vertex.m_Format
                k).1.map Prod.snd })) := by
  have hstack : ¬ INT_MAX < nstacks + 1 := by
    have h1 : nstacks + 1 ≤ (nstacks + 1) * vertexSize vertex.m_Format :=
      Nat.le_mul_of_pos_right _ (vertexSize_pos _)
    have h2 : (nstacks + 1) * vertexSize vertex.m_Format ≤
        (nstacks + 1) * vertexSize vertex.m_Format * 2 := Nat.le_mul_of_pos_right _ (by decide)
    omega
  have hfan : toInt ((nstacks + 1) * vertex.m_Stride * 2 % 2 ^ w) =
      (((nstacks + 1) * vertexSize vertex.m_Format * 2 : Nat) : Int) := by
    rw [hstride]
    exact toInt_of_le w _ hw hfit
  intro steps
  induction steps with
  | zero =>
    intro i mesh h _ _
    have : slices + 1 - i = 0 := by omega
    simp [sphereSliceLoop, this]
  | succ n ih =>
    intro i mesh h hs hm
    by_cases hi : i ≤ slices
    · have hfill : applyWritesChecked
          (setLength vertex.m_Buffer ((nstacks + 1) * vertexSize vertex.m_Format * 2))
          (sphereSliceWrites sinf cosf pi radius slices nstacks color vertex.m_Format i).1 =
          some ((sphereSliceWrites sinf cosf pi radius slices nstacks color vertex.m_Format
            i).1.map Prod.snd) := by
        have hidx := (sphereSliceWrites_spec sinf cosf pi radius slices nstacks color
          vertex.m_Format i).1
        rw [applyWritesChecked_of_lt, applyWrites_fills_buffer]
        · rw [setLength_length]; exact hidx
        · intro x hx
          have hm2 : x.1 ∈ (sphereSliceWrites sinf cosf pi radius slices nstacks color
              vertex.m_Format i).1.map Prod.fst := List.mem_map_of_mem _ hx
          rw [hidx] at hm2
          rw [setLength_length]
          exact List.mem_range.mp hm2
      have hml : ¬ INT_MAX < mesh.length + 1 := by omega
      have hii : ¬ INT_MAX < i + 1 := by omega
      have hneg : ¬ (((nstacks + 1) * vertexSize vertex.m_Format * 2 : Nat) : Int) < 0 :=
        not_lt.mpr (Int.ofNat_nonneg _)
      simp only [sphereSliceLoop, hi, if_true, hstack, if_false, hfan, hml, hneg, Int.toNat_ofNat,
        hfill, hii]
      rw [ih (i + 1) _ (by omega) hs
        (by rw [List.length_append, List.length_singleton]; omega)]
      have hsplit : slices + 1 - i = (slices + 1 - (i + 1)) + 1 := by omega
      rw [hsplit, List.range'_succ]
      simp
    · have : slices + 1 - i = 0 := by omega
      simp [sphereSliceLoop, hi, this]

/-- C22 as stated fails: with `stacks = 306783378` and a vertex of stride `7` (colours only),
the product `(stacks + 1) * stride * 2 = 4294967306` does not fit the `int fanLength`, which
becomes `10`, so the buffer of the first slice has `10` floats where the claim says
`2 * (stacks + 1) * stride`, the assignments of the loop leave the buffer, and the function
does not fill it; the same on a 32-bit and on a 64-bit `std::size_t`. -/
theorem CreateSphere_fanLength_wraps :
    vertexSize Example.colouredVertex.m_Format = 7 ∧
    2 * (306783378 + 1) * 7 = 4294967306 ∧
    toInt ((306783378 + 1) * 7 * 2 % 2 ^ 32) = 10 ∧
    toInt ((306783378 + 1) * 7 * 2 % 2 ^ 64) = 10 ∧
    CreateSphere 32 (fun x => x) (fun x => 1 - x) 3 (fun v => vertexSize v.m_Format) 1 1
      306783378 255 Example.colouredVertex [] = none ∧
    CreateSphere 64 (fun x => x) (fun x => 1 - x) 3 (fun v => vertexSize v.m_Format) 1 1
      306783378 255 Example.colouredVertex [] = none := by
  have hnone : applyWritesChecked (setLength ([] : List ℚ) 10)
      (sphereSliceWrites (fun x => x) (fun x => 1 - x) 3 1 1 306783378 255
        [EQRVertexFormat.EQR_VF_Colors] 0).1 = none := by
    have hidx := (sphereSliceWrites_spec (fun x => x) (fun x => 1 - x) 3 1 1 306783378 255
      [EQRVertexFormat.EQR_VF_Colors] 0).1
    have hlen := congrArg List.length hidx
    simp only [List.length_map, List.length_range] at hlen
    refine applyWritesChecked_none _ 0 _ ?_ (Nat.zero_le _) ?_
    · rw [hidx, hlen, List.range_eq_range']
    · rw [setLength_length, hlen]
      decide
  have h32 : toInt ((306783378 + 1) * 7 * 2 % 2 ^ 32) = 10 := by decide
  have h64 : toInt ((306783378 + 1) * 7 * 2 % 2 ^ 64) = 10 := by decide
  have hs7 : vertexSize [EQRVertexFormat.EQR_VF_Colors] = 7 := by decide
  refine ⟨by decide, by decide, h32, h64, ?_, ?_⟩
  · simp only [CreateSphere, sphereSliceLoop, Example.colouredVertex, hs7, h32]
    simp [INT_MAX, hnone]
  · simp only [CreateSphere, sphereSliceLoop, Example.colouredVertex, hs7, h64]
    simp [INT_MAX, hnone]

/-- C22, amended. Provided the stride `CalculateStride` gives the vertex is `3`, plus `3` for
normals, `2` for texture coordinates and `4` for colours, and provided the `int` quantities
fit (`2 * (stacks + 1) * stride ≤ INT_MAX` and `mesh.Length + slices < INT_MAX`),
`CreateSphere` returns, having appended `slices + 1` buffers to the mesh; each of them has
length `2 * (stacks + 1) * stride`, a multiple of the stride; the inner loop writes the indices
`0, 1, ...` up to that length in this order, so every write is below the length and every slot
is written; and `index` equals the length when the strip is finished. -/
theorem CreateSphere_fills_buffers (w : Nat) (sinf cosf : ℚ → ℚ) (pi : ℚ)
    (CalculateStride : TQRVertex → Nat) (radius : ℚ) (slices nstacks color : Nat)
    (vertex : TQRVertex) (mesh : TQRMesh) (hw : 32 ≤ w)
    (hstride : CalculateStride
      { vertex with
        m_CoordType := EQRVertexCoordType.EQR_VC_XYZ,
        m_Type := EQRVertexType.EQR_VT_TriangleStrip } = vertexSize vertex.m_Format)
    (hfit : 2 * (nstacks + 1) * vertexSize vertex.m_Format ≤ INT_MAX)
    (hmesh : mesh.length + slices < INT_MAX) :
    ∃ (vertex2 : TQRVertex) (mesh2 : TQRMesh),
      CreateSphere w sinf cosf pi CalculateStride radius slices nstacks color vertex mesh =
        some (vertex2, mesh2) ∧
      vertex2.m_Stride = vertexSize vertex.m_Format ∧
      mesh2.length = mesh.length + (slices + 1) ∧
      mesh2.take mesh.length = mesh ∧
      (∀ i, i ≤ slices →
        ∃ v : TQRVertex,
          mesh2[mesh.length + i]? = some v ∧
          v.m_Stride = vertexSize vertex.m_Format ∧
          v.m_Buffer.length = 2 * (nstacks + 1) * v.m_Stride ∧
          v.m_Buffer.length % v.m_Stride = 0 ∧
          (sphereSliceWrites sinf cosf pi radius slices nstacks color vertex.m_Format i).1.map
            Prod.fst = List.range v.m_Buffer.length ∧
          (∀ x ∈ (sphereSliceWrites sinf cosf pi radius slices nstacks color vertex.m_Format
            i).1, x.1 < v.m_Buffer.length) ∧
          (sphereSliceWrites sinf cosf pi radius slices nstacks color vertex.m_Format i).2 =
            v.m_Buffer.length ∧
          v.m_Buffer =
            (sphereSliceWrites sinf cosf pi radius slices nstacks color vertex.m_Format i).1.map
              Prod.snd) := by
  have hfit2 : (nstacks + 1) * vertexSize vertex.m_Format * 2 ≤ INT_MAX := by
    rw [Nat.mul_comm _ 2, ← Nat.mul_assoc]
    exact hfit
  have hloop := sphereSliceLoop_spec w sinf cosf pi radius slices nstacks color
    { vertex with
      m_CoordType := EQRVertexCoordType.EQR_VC_XYZ,
      m_Type := EQRVertexType.EQR_VT_TriangleStrip,
      m_Stride := vertexSize vertex.m_Format } hw rfl hfit2 (slices + 1) 0 mesh
    (Nat.sub_le _ _) (by omega) (by omega)
  simp only [Nat.sub_zero] at hloop
  simp only [CreateSphere, hstride, hloop]
  refine ⟨_, _, rfl, rfl, by simp, by simp, ?_⟩
  intro i hi
  have hspec := sphereSliceWrites_spec sinf cosf pi radius slices nstacks color
    vertex.m_Format i
  have hlen : ((sphereSliceWrites sinf cosf pi radius slices nstacks color vertex.m_Format
      i).1.map Prod.snd).length = (nstacks + 1) * vertexSize vertex.m_Format * 2 := by
    have := congrArg List.length hspec.1
    simpa using this
  refine ⟨{ vertex with
      m_CoordType := EQRVertexCoordType.EQR_VC_XYZ,
      m_Type := EQRVertexType.EQR_VT_TriangleStrip,
      m_Stride := vertexSize vertex.m_Format,
      m_Buffer := (sphereSliceWrites sinf cosf pi radius slices nstacks color
        vertex.m_Format i).1.map Prod.snd }, ?_, rfl, ?_, ?_, ?_, ?_, ?_, rfl⟩
  · rw [List.getElem?_append_right (Nat.le_add_right _ _), Nat.add_sub_cancel_left,
      List.getElem?_map, List.getElem?_range' _ _ (by omega)]
    simp
  · show ((sphereSliceWrites sinf cosf pi radius slices nstacks color vertex.m_Format
      i).1.map Prod.snd).length = _
    rw [hlen, Nat.mul_comm 2, Nat.mul_right_comm]
  · show ((sphereSliceWrites sinf cosf pi radius slices nstacks color vertex.m_Format
      i).1.map Prod.snd).length % vertexSize vertex.m_Format = 0
    rw [hlen, Nat.mul_right_comm, Nat.mul_mod_left]
  · show _ = List.range ((sphereSliceWrites sinf cosf pi radius slices nstacks color
      vertex.m_Format i).1.map Prod.snd).length
    rw [hlen]
    exact hspec.1
  · intro x hx
    show x.1 < ((sphereSliceWrites sinf cosf pi radius slices nstacks color vertex.m_Format
      i).1.map Prod.snd).length
    rw [hlen]
    have hm : x.1 ∈ (sphereSliceWrites sinf cosf pi radius slices nstacks color
        vertex.m_Format i).1.map Prod.fst := List.mem_map_of_mem _ hx
    rw [hspec.1] at hm
    exact List.mem_range.mp hm
  · show _ = ((sphereSliceWrites sinf cosf pi radius slices nstacks color vertex.m_Format
      i).1.map Prod.snd).length
    rw [hlen]
    exact hspec.2

/-- C22 amended, on a sphere of one slice and one stack whose vertices carry a colour, with a
32-bit `std::size_t`: the stride is `7`, two buffers are appended, each of `28` floats, and the
inner loop writes the indices `0` to `27` in order. -/
theorem CreateSphere_fills_buffers_witness :
    (32 ≤ 32) ∧
      vertexSize Example.colouredVertex.m_Format = 7 ∧
      2 * (1 + 1) * vertexSize Example.colouredVertex.m_Format ≤ INT_MAX ∧
      ([] : TQRMesh).length + 1 < INT_MAX ∧
      ∃ (vertex2 : TQRVertex) (mesh2 : TQRMesh),
        CreateSphere 32 (fun x => x) (fun x => 1 - x) 3 (fun v => vertexSize v.m_Format) 1 1 1
          255 Example.colouredVertex [] = some (vertex2, mesh2) ∧
        vertex2.m_Stride = 7 ∧ mesh2.length = 2 ∧
        ∀ i, i ≤ 1 →
          ∃ v : TQRVertex, mesh2[i]? = some v ∧ v.m_Stride = 7 ∧ v.m_Buffer.length = 28 ∧
            (sphereSliceWrites (fun x => x) (fun x => 1 - x) 3 1 1 1 255
              Example.colouredVertex.m_Format i).1.map Prod.fst = List.range 28 := by
  refine ⟨le_refl _, rfl, by decide, by decide, ?_⟩
  obtain ⟨vertex2, mesh2, h, hs, hl, _, hall⟩ :=
    CreateSphere_fills_buffers 32 (fun x => x) (fun x => 1 - x) 3
      (fun v => vertexSize v.m_Format) 1 1 1 255 Example.colouredVertex [] (le_refl _) rfl
      (by decide) (by decide)
  refine ⟨vertex2, mesh2, h, hs, hl, fun i hi => ?_⟩
  obtain ⟨v, hv, hs7, hl2, _, hidx, _⟩ := hall i hi
  have hs7b : v.m_Stride = 7 := hs7
  have hl28 : v.m_Buffer.length = 28 := by rw [hl2, hs7b]
  refine ⟨v, ?_, hs7b, hl28, ?_⟩
  · simpa using hv
  · rw [hidx, hl28]

end AABB

end Mels
